import Mathlib

/-!
Shallow embedding of keppel's manifest ingest/lifecycle engine, janitor
sweeps, token engine and validation session, together with theorems checking
the natural-language specification against this embedding.

Each definition is translated from the corresponding Go source:
* `validateAndStoreManifest` et al. — `internal/processor` (ValidateAndStoreManifest)
* `syncPass` / `syncLoop` — `internal/tasks/manifests.go` (performManifestSync)
* `validateNextManifest` — `internal/tasks/manifests.go` (ValidateNextManifest)
* `doVulnerabilityCheck` / `checkVulnerabilitiesForNextManifest` —
  `internal/tasks/manifests.go`
* `issueToken` / `parseToken` — `internal/auth` (IssueToken, parseToken)
* `applyDefaults` / `doValidateManifestGo` — `internal/client/validate.go`

External collaborators (the distribution manifest parser, the storage driver,
the peer client, Clair, JSON decoding of config blobs, JWT cryptography) are
modelled as oracle parameters, with their documented guarantees (e.g. that
`UnmarshalManifest` returns a descriptor whose Size is the payload length)
reflected in how the embedding invokes them.
-/

/-! # Part 1: Processor — ValidateAndStoreManifest (claims C1–C4) -/

/-- A content descriptor as returned by `manifest.References()`:
a digest plus the size declared in the manifest.  Declared sizes are
modelled as the natural numbers obtained from the parsed manifest. -/
structure Descriptor where
  digest : String
  size : Nat
deriving Repr, DecidableEq

/-- The parts of a parsed `distribution.Manifest` that
`ValidateAndStoreManifest` consumes: the reference list, whether the
manifest is a manifest list (`manifestlist.DeserializedManifestList`),
and the config blob descriptor (for schema2 / OCI manifests). -/
structure ParsedManifest where
  references : List Descriptor
  isManifestList : Bool
  configBlob : Descriptor
deriving Repr, DecidableEq

/-- Result of `distribution.UnmarshalManifest`: the parsed manifest plus the
computed digest of the payload.  (The returned descriptor's `Size` is the
payload length; the embedding supplies it as `contents.length`.) -/
structure ParseResult where
  manifest : ParsedManifest
  digest : String
deriving Repr, DecidableEq

/-- `keppel.ManifestReference`: either a tag name or a digest. -/
inductive ManifestReference where
  | tag (name : String)
  | digest (d : String)
deriving Repr, DecidableEq

/-- `IncomingManifest` from the processor package.  Contents are a byte
string, modelled as a list of bytes. -/
structure IncomingManifest where
  repoName : String
  reference : ManifestReference
  mediaType : String
  contents : List Nat
  pushedAt : Int
deriving Repr, DecidableEq

/-- The fields of `keppel.Account` that `ValidateAndStoreManifest` reads. -/
structure Account where
  name : String
  upstreamPeerHostName : String
  requiredLabels : String
deriving Repr, DecidableEq

/-- A `manifests` table row as created by `ValidateAndStoreManifest`. -/
structure ManifestRowP where
  repositoryID : Nat
  digest : String
  mediaType : String
  sizeBytes : Nat
  pushedAt : Int
  validatedAt : Int
deriving Repr, DecidableEq

/-- A `tags` table row. -/
structure TagRow where
  repositoryID : Nat
  name : String
  digest : String
  pushedAt : Int
deriving Repr, DecidableEq

/-- A `repos` table row. -/
structure RepoRow where
  id : Nat
  accountName : String
  name : String
deriving Repr, DecidableEq

/-- The slice of the database that `ValidateAndStoreManifest` touches.
`blobs` records which blob digests are mounted in which repo
(`FindBlobByRepositoryID` succeeds exactly on those pairs). -/
structure ProcDB where
  repos : List RepoRow
  blobs : List (Nat × String)
  manifests : List ManifestRowP
  tags : List TagRow
deriving Repr, DecidableEq

/-- The manifest store of the storage driver: entries written by
`WriteManifest(account, repoName, digest, contents)`. -/
abbrev Storage := List (String × String × String × List Nat)

/-- Registry API errors produced along this code path. -/
inductive RegErr where
  | manifestInvalid (detail : String)
  | digestInvalid (detail : String)
  | manifestBlobUnknown (detail : String)
  | quota (msg : String)
  | dbError (msg : String)
  | storageError (msg : String)
deriving Repr, DecidableEq

/-- `keppel.DB.FindOrCreateRepository`: look up the repo row by
(account name, repo name); create it (committed immediately, outside the
manifest transaction) when absent.  Fresh ids are one above the maximum. -/
def findOrCreateRepository (db : ProcDB) (repoName : String) (account : Account) :
    RepoRow × ProcDB :=
  match db.repos.find? (fun r => r.accountName = account.name ∧ r.name = repoName) with
  | some r => (r, db)
  | none =>
      let newID := (db.repos.map (·.id)).foldr max 0 + 1
      let r : RepoRow := ⟨newID, account.name, repoName⟩
      (r, { db with repos := db.repos ++ [r] })

/-- The loop `for _, desc := range manifest.References()` checking
`FindBlobByRepositoryID`: fails with `MANIFEST_BLOB_UNKNOWN` (detail = the
descriptor's digest) at the first descriptor with no blob row in this repo. -/
def checkReferencedBlobsExist (db : ProcDB) (repoID : Nat) :
    List Descriptor → Except RegErr Unit
  | [] => .ok ()
  | d :: rest =>
      if (repoID, d.digest) ∈ db.blobs then
        checkReferencedBlobsExist db repoID rest
      else
        .error (.manifestBlobUnknown d.digest)

/-- `checkManifestHasRequiredLabels`: manifest lists have no labels and pass
vacuously; otherwise the config blob is loaded and JSON-decoded (modelled by
the `labelsOf` oracle returning the label names present in the config blob)
and the required labels not present are returned. -/
def checkManifestHasRequiredLabels (labelsOf : Descriptor → Except RegErr (List String))
    (parsed : ParsedManifest) (requiredLabels : List String) :
    Except RegErr (List String) :=
  if parsed.isManifestList then
    .ok []
  else
    match labelsOf parsed.configBlob with
    | .error e => .error e
    | .ok labels => .ok (requiredLabels.filter (fun l => ¬ labels.contains l))

/-- The size computation of `ValidateAndStoreManifest`:
`sizeBytes := uint64(manifestDesc.Size)` followed by
`sizeBytes += uint64(desc.Size)` for each reference, in uint64 arithmetic. -/
def manifestSizeBytes (contentsLen : Nat) (refs : List Descriptor) : Nat :=
  refs.foldl (fun acc d => (acc + d.size % 2 ^ 64) % 2 ^ 64) (contentsLen % 2 ^ 64)

/-- `keppel.Manifest.InsertIfMissing`: insert unless a row with the same
`(repo_id, digest)` key exists. -/
def insertManifestIfMissing (db : ProcDB) (row : ManifestRowP) : ProcDB :=
  if db.manifests.any (fun r => r.repositoryID = row.repositoryID ∧ r.digest = row.digest) then
    db
  else
    { db with manifests := db.manifests ++ [row] }

/-- `keppel.Tag.InsertIfMissing`: insert unless a row with the same
`(repo_id, name)` key exists. -/
def insertTagIfMissing (db : ProcDB) (row : TagRow) : ProcDB :=
  if db.tags.any (fun r => r.repositoryID = row.repositoryID ∧ r.name = row.name) then
    db
  else
    { db with tags := db.tags ++ [row] }

/-- The validation prefix of the `insideTransaction` closure in
`ValidateAndStoreManifest`: for non-replica accounts
(`UpstreamPeerHostName == ""`) check that every referenced blob exists in
this repo, then enforce `required_labels` when configured; for replica
accounts both checks are skipped. -/
def vasmValidate (labelsOf : Descriptor → Except RegErr (List String))
    (account : Account) (pr : ParseResult) (repo : RepoRow) (db : ProcDB) :
    Except RegErr Unit :=
  if account.upstreamPeerHostName = "" then
    match checkReferencedBlobsExist db repo.id pr.manifest.references with
    | .error e => .error e
    | .ok () =>
        if account.requiredLabels ≠ "" then
          let requiredLabels := account.requiredLabels.splitOn ","
          match checkManifestHasRequiredLabels labelsOf pr.manifest requiredLabels with
          | .error e => .error e
          | .ok missingLabels =>
              if missingLabels ≠ [] then
                .error (.manifestInvalid
                  ("missing required labels: " ++ String.intercalate ", " missingLabels))
              else
                .ok ()
        else
          .ok ()
  else
    .ok ()

/-- The body of the `insideTransaction` closure in
`ValidateAndStoreManifest`, in source order: the replica-gated validations
(`vasmValidate`), then the size computation, the manifest row insert, the
tag row insert (when the reference is a tag), and finally the storage write
(`sd.WriteManifest`), whose success is modelled by the `sdWriteOK`
oracle. -/
def vasmTxnBody (labelsOf : Descriptor → Except RegErr (List String)) (sdWriteOK : Bool)
    (account : Account) (m : IncomingManifest) (pr : ParseResult) (repo : RepoRow)
    (db : ProcDB) (st : Storage) :
    Except RegErr (ManifestRowP × ProcDB × Storage) :=
  match vasmValidate labelsOf account pr repo db with
  | .error e => .error e
  | .ok () =>
      let sizeBytes := manifestSizeBytes m.contents.length pr.manifest.references
      let dbManifest : ManifestRowP :=
        { repositoryID := repo.id
          digest := pr.digest
          mediaType := m.mediaType
          sizeBytes := sizeBytes
          pushedAt := m.pushedAt
          validatedAt := m.pushedAt }
      let db1 := insertManifestIfMissing db dbManifest
      let db2 :=
        match m.reference with
        | .tag name => insertTagIfMissing db1 ⟨repo.id, name, pr.digest, m.pushedAt⟩
        | .digest _ => db1
      if sdWriteOK then
        .ok (dbManifest, db2, st ++ [(account.name, repo.name, pr.digest, m.contents)])
      else
        .error (.storageError "WriteManifest failed")

/-- `ValidateAndStoreManifest`.  The quota check and `UnmarshalManifest`
are modelled by the `quotaOK` and `parse` oracles; `FindOrCreateRepository`
commits outside the transaction; the transaction body runs under
`insideTransaction` semantics: on error the database changes of the body
are rolled back (the storage write is not a DB effect, but it is the last
step of the body, so an aborted body never wrote to storage either). -/
def validateAndStoreManifest (quotaOK : Bool)
    (parse : String → List Nat → Option ParseResult)
    (labelsOf : Descriptor → Except RegErr (List String)) (sdWriteOK : Bool)
    (account : Account) (m : IncomingManifest) (db : ProcDB) (st : Storage) :
    Except RegErr ManifestRowP × ProcDB × Storage :=
  if ¬ quotaOK then
    (.error (.quota "manifest quota exceeded"), db, st)
  else
    let repo := (findOrCreateRepository db m.repoName account).1
    let db1 := (findOrCreateRepository db m.repoName account).2
    match parse m.mediaType m.contents with
    | none => (.error (.manifestInvalid "unmarshal failed"), db1, st)
    | some pr =>
        let mismatch : Bool :=
          match m.reference with
          | .digest d => pr.digest ≠ d
          | .tag _ => false
        if mismatch then
          (.error (.digestInvalid ("actual manifest digest is " ++ pr.digest)), db1, st)
        else
          match vasmTxnBody labelsOf sdWriteOK account m pr repo db1 st with
          | .ok (row, db2, st2) => (.ok row, db2, st2)
          | .error e => (.error e, db1, st)

/-! ### Processor helper lemmas -/

theorem findOrCreateRepository_manifests (db : ProcDB) (n : String) (a : Account) :
    ((findOrCreateRepository db n a).2).manifests = db.manifests := by
  unfold findOrCreateRepository
  cases db.repos.find? (fun r => r.accountName = a.name ∧ r.name = n) <;> simp

theorem findOrCreateRepository_tags (db : ProcDB) (n : String) (a : Account) :
    ((findOrCreateRepository db n a).2).tags = db.tags := by
  unfold findOrCreateRepository
  cases db.repos.find? (fun r => r.accountName = a.name ∧ r.name = n) <;> simp

theorem findOrCreateRepository_blobs (db : ProcDB) (n : String) (a : Account) :
    ((findOrCreateRepository db n a).2).blobs = db.blobs := by
  unfold findOrCreateRepository
  cases db.repos.find? (fun r => r.accountName = a.name ∧ r.name = n) <;> simp

theorem vasmTxnBody_write_fail (labelsOf : Descriptor → Except RegErr (List String))
    (account : Account) (m : IncomingManifest) (pr : ParseResult) (repo : RepoRow)
    (db : ProcDB) (st : Storage) :
    ∃ e, vasmTxnBody labelsOf false account m pr repo db st = .error e := by
  unfold vasmTxnBody
  cases vasmValidate labelsOf account pr repo db with
  | error e => exact ⟨e, rfl⟩
  | ok u => cases u; exact ⟨.storageError "WriteManifest failed", rfl⟩

theorem checkReferencedBlobsExist_error_of_missing (db : ProcDB) (repoID : Nat) :
    ∀ l : List Descriptor, (∃ d ∈ l, (repoID, d.digest) ∉ db.blobs) →
      ∃ d, d ∈ l ∧ (repoID, d.digest) ∉ db.blobs ∧
        checkReferencedBlobsExist db repoID l = .error (.manifestBlobUnknown d.digest)
  | [], h => by simp at h
  | d :: rest, h => by
      by_cases hd : (repoID, d.digest) ∈ db.blobs
      · obtain ⟨d', hd', hmiss⟩ := h
        have hd'rest : d' ∈ rest := by
          rcases List.mem_cons.mp hd' with h1 | h1
          · exact absurd (h1 ▸ hd) hmiss
          · exact h1
        obtain ⟨d'', h1, h2, h3⟩ :=
          checkReferencedBlobsExist_error_of_missing db repoID rest ⟨d', hd'rest, hmiss⟩
        refine ⟨d'', List.mem_cons_of_mem _ h1, h2, ?_⟩
        simpa [checkReferencedBlobsExist, hd] using h3
      · exact ⟨d, List.mem_cons_self _ _, hd, by simp [checkReferencedBlobsExist, hd]⟩

/-- C1: In `ValidateAndStoreManifest`, the storage-driver write of the
manifest bytes is the final step of the single DB transaction, so whenever
the storage write fails, the whole transaction aborts: the call returns an
error, no Manifest or Tag row from this call remains committed, and no
storage object was written. -/
theorem C1_storage_write_failure_leaves_no_dangling_row
    (quotaOK : Bool) (parse : String → List Nat → Option ParseResult)
    (labelsOf : Descriptor → Except RegErr (List String))
    (account : Account) (m : IncomingManifest) (db : ProcDB) (st : Storage) :
    (∃ e, (validateAndStoreManifest quotaOK parse labelsOf false account m db st).1 = .error e)
    ∧ (validateAndStoreManifest quotaOK parse labelsOf false account m db st).2.1.manifests
        = db.manifests
    ∧ (validateAndStoreManifest quotaOK parse labelsOf false account m db st).2.1.tags
        = db.tags
    ∧ (validateAndStoreManifest quotaOK parse labelsOf false account m db st).2.2 = st := by
  have hman := findOrCreateRepository_manifests db m.repoName account
  have htag := findOrCreateRepository_tags db m.repoName account
  unfold validateAndStoreManifest
  split
  · exact ⟨⟨_, rfl⟩, rfl, rfl, rfl⟩
  · cases hp : parse m.mediaType m.contents with
    | none =>
        refine ⟨⟨.manifestInvalid "unmarshal failed", ?_⟩, ?_, ?_, ?_⟩ <;>
          simp [hp, hman, htag]
    | some pr =>
        simp only [hp]
        obtain ⟨e, he⟩ := vasmTxnBody_write_fail labelsOf account m pr
          (findOrCreateRepository db m.repoName account).1
          (findOrCreateRepository db m.repoName account).2 st
        split
        · refine ⟨⟨.digestInvalid ("actual manifest digest is " ++ pr.digest), ?_⟩, ?_, ?_, ?_⟩ <;>
            simp [hman, htag]
        · rw [he]
          refine ⟨⟨e, ?_⟩, ?_, ?_, ?_⟩ <;> simp [hman, htag]

theorem findOrCreateRepository_blobs_swap (db : ProcDB) (b : List (Nat × String))
    (n : String) (a : Account) :
    findOrCreateRepository { db with blobs := b } n a
      = ((findOrCreateRepository db n a).1,
         { (findOrCreateRepository db n a).2 with blobs := b }) := by
  unfold findOrCreateRepository
  cases h : db.repos.find? (fun r => r.accountName = a.name ∧ r.name = n) <;> simp [h]

theorem insertManifestIfMissing_blobs_swap (db : ProcDB) (row : ManifestRowP)
    (b : List (Nat × String)) :
    insertManifestIfMissing { db with blobs := b } row
      = { insertManifestIfMissing db row with blobs := b } := by
  unfold insertManifestIfMissing
  by_cases h : ∃ x ∈ db.manifests,
      x.repositoryID = row.repositoryID ∧ x.digest = row.digest <;> simp [h]

theorem insertTagIfMissing_blobs_swap (db : ProcDB) (row : TagRow)
    (b : List (Nat × String)) :
    insertTagIfMissing { db with blobs := b } row
      = { insertTagIfMissing db row with blobs := b } := by
  unfold insertTagIfMissing
  by_cases h : ∃ x ∈ db.tags,
      x.repositoryID = row.repositoryID ∧ x.name = row.name <;> simp [h]

theorem vasmTxnBody_replica_swap
    (labels1 labels2 : Descriptor → Except RegErr (List String)) (w : Bool)
    (account : Account) (m : IncomingManifest) (pr : ParseResult) (repo : RepoRow)
    (db : ProcDB) (b : List (Nat × String)) (st : Storage)
    (hrep : account.upstreamPeerHostName ≠ "") :
    vasmTxnBody labels2 w account m pr repo { db with blobs := b } st
      = match vasmTxnBody labels1 w account m pr repo db st with
        | .ok (row, db2, st2) => .ok (row, { db2 with blobs := b }, st2)
        | .error e => .error e := by
  unfold vasmTxnBody vasmValidate
  simp only [hrep, if_false, if_neg hrep]
  cases m.reference <;>
    cases w <;>
      simp [insertManifestIfMissing_blobs_swap, insertTagIfMissing_blobs_swap]

/-- C2: for a manifest pushed into a non-replica account (empty upstream
peer hostname), `ValidateAndStoreManifest` checks each descriptor of the
manifest's reference list against the repo's Blob rows and fails with
`MANIFEST_BLOB_UNKNOWN` carrying the offending descriptor's digest as
detail when one is missing (part 1); for replica accounts the
blob-existence check and the required-labels check are skipped: the
result and the committed Manifest/Tag rows and storage writes are
independent of the blob table and of the config-blob labels (part 2). -/
theorem C2_blob_check_enforced_and_skipped_for_replicas :
    (∀ (parse : String → List Nat → Option ParseResult)
       (labelsOf : Descriptor → Except RegErr (List String)) (w : Bool)
       (account : Account) (m : IncomingManifest) (db : ProcDB) (st : Storage)
       (pr : ParseResult),
      parse m.mediaType m.contents = some pr →
      (∀ d, m.reference = .digest d → pr.digest = d) →
      account.upstreamPeerHostName = "" →
      (∃ d ∈ pr.manifest.references,
        ((findOrCreateRepository db m.repoName account).1.id, d.digest) ∉ db.blobs) →
      ∃ d, d ∈ pr.manifest.references ∧
        ((findOrCreateRepository db m.repoName account).1.id, d.digest) ∉ db.blobs ∧
        validateAndStoreManifest true parse labelsOf w account m db st
          = (.error (.manifestBlobUnknown d.digest),
             (findOrCreateRepository db m.repoName account).2, st))
    ∧
    (∀ (quotaOK : Bool) (parse : String → List Nat → Option ParseResult)
       (labels1 labels2 : Descriptor → Except RegErr (List String)) (w : Bool)
       (account : Account) (m : IncomingManifest) (db : ProcDB)
       (b : List (Nat × String)) (st : Storage),
      account.upstreamPeerHostName ≠ "" →
      validateAndStoreManifest quotaOK parse labels2 w account m { db with blobs := b } st
        = ((validateAndStoreManifest quotaOK parse labels1 w account m db st).1,
           { (validateAndStoreManifest quotaOK parse labels1 w account m db st).2.1
              with blobs := b },
           (validateAndStoreManifest quotaOK parse labels1 w account m db st).2.2)) := by
  constructor
  · intro parse labelsOf w account m db st pr hp hdg hrep hmiss
    have hblobs := findOrCreateRepository_blobs db m.repoName account
    obtain ⟨d, hd, hmem, hchk⟩ :=
      checkReferencedBlobsExist_error_of_missing
        (findOrCreateRepository db m.repoName account).2
        (findOrCreateRepository db m.repoName account).1.id
        pr.manifest.references
        (by rw [hblobs]; exact hmiss)
    rw [hblobs] at hmem
    refine ⟨d, hd, hmem, ?_⟩
    have hval : vasmValidate labelsOf account pr
        (findOrCreateRepository db m.repoName account).1
        (findOrCreateRepository db m.repoName account).2
        = .error (.manifestBlobUnknown d.digest) := by
      unfold vasmValidate
      rw [if_pos hrep, hchk]
    have hbody : ∀ st', vasmTxnBody labelsOf w account m pr
        (findOrCreateRepository db m.repoName account).1
        (findOrCreateRepository db m.repoName account).2 st'
        = .error (.manifestBlobUnknown d.digest) := by
      intro st'
      unfold vasmTxnBody
      rw [hval]
    unfold validateAndStoreManifest
    cases href : m.reference with
    | tag t => simp [hp, href, hbody]
    | digest dd =>
        have hdd : pr.digest = dd := hdg dd href
        simp [hp, href, hdd, hbody]
  · intro quotaOK parse labels1 labels2 w account m db b st hrep
    unfold validateAndStoreManifest
    by_cases hq : quotaOK = true
    · simp only [hq]
      rw [findOrCreateRepository_blobs_swap]
      cases hp : parse m.mediaType m.contents with
      | none => simp [hp]
      | some pr =>
          simp only [hp]
          rw [vasmTxnBody_replica_swap labels1 labels2 w account m pr
            (findOrCreateRepository db m.repoName account).1
            (findOrCreateRepository db m.repoName account).2 b st hrep]
          cases href : m.reference with
          | tag t =>
              simp only [href]
              cases hb : vasmTxnBody labels1 w account m pr
                  (findOrCreateRepository db m.repoName account).1
                  (findOrCreateRepository db m.repoName account).2 st with
              | ok v => simp [hb]
              | error e => simp [hb]
          | digest dd =>
              simp only [href]
              by_cases hmm : pr.digest ≠ dd
              · simp [hmm]
              · simp only [hmm]
                cases hb : vasmTxnBody labels1 w account m pr
                    (findOrCreateRepository db m.repoName account).1
                    (findOrCreateRepository db m.repoName account).2 st with
                | ok v => simp [hb, hmm]
                | error e => simp [hb, hmm]
    · simp [hq]

theorem manifestSizeBytes_foldl_no_overflow :
    ∀ (refs : List Descriptor) (acc : Nat),
      acc + (refs.map (·.size)).sum < 2 ^ 64 →
      refs.foldl (fun a d => (a + d.size % 2 ^ 64) % 2 ^ 64) acc
        = acc + (refs.map (·.size)).sum
  | [], acc, _ => by simp
  | d :: rest, acc, h => by
      have hsum : acc + (d.size + ((rest.map (·.size)).sum)) < 2 ^ 64 := by
        simpa [List.map_cons, List.sum_cons] using h
      have hds : d.size < 2 ^ 64 := by omega
      have hacc : acc + d.size < 2 ^ 64 := by omega
      have hmod : (acc + d.size % 2 ^ 64) % 2 ^ 64 = acc + d.size := by
        rw [Nat.mod_eq_of_lt hds, Nat.mod_eq_of_lt hacc]
      have hrec := manifestSizeBytes_foldl_no_overflow rest (acc + d.size) (by omega)
      calc (d :: rest).foldl (fun a d => (a + d.size % 2 ^ 64) % 2 ^ 64) acc
          = rest.foldl (fun a d => (a + d.size % 2 ^ 64) % 2 ^ 64)
              ((acc + d.size % 2 ^ 64) % 2 ^ 64) := by simp [List.foldl_cons]
        _ = rest.foldl (fun a d => (a + d.size % 2 ^ 64) % 2 ^ 64) (acc + d.size) := by
              rw [hmod]
        _ = acc + d.size + (rest.map (·.size)).sum := hrec
        _ = acc + ((d :: rest).map (·.size)).sum := by
              simp [List.map_cons, List.sum_cons]; omega

theorem manifestSizeBytes_no_overflow (contentsLen : Nat) (refs : List Descriptor)
    (h : contentsLen + (refs.map (·.size)).sum < 2 ^ 64) :
    manifestSizeBytes contentsLen refs = contentsLen + (refs.map (·.size)).sum := by
  unfold manifestSizeBytes
  have hc : contentsLen < 2 ^ 64 := by omega
  rw [Nat.mod_eq_of_lt hc]
  exact manifestSizeBytes_foldl_no_overflow refs contentsLen h

theorem insertTagIfMissing_manifests (db : ProcDB) (row : TagRow) :
    (insertTagIfMissing db row).manifests = db.manifests := by
  unfold insertTagIfMissing
  split <;> simp

theorem insertManifestIfMissing_mem_of_fresh (db : ProcDB) (row : ManifestRowP)
    (hfresh : ∀ r ∈ db.manifests, ¬ (r.repositoryID = row.repositoryID ∧ r.digest = row.digest)) :
    (insertManifestIfMissing db row).manifests = db.manifests ++ [row] := by
  unfold insertManifestIfMissing
  split
  · rename_i hc
    simp only [List.any_eq_true, decide_eq_true_eq] at hc
    obtain ⟨x, hx, hk⟩ := hc
    exact absurd hk (hfresh x hx)
  · rfl


/-- C3 (invariant I7): for every successfully stored manifest, the persisted
`Manifest.size_bytes` equals the byte length of the manifest contents plus
the sum of the declared sizes of all descriptors in its reference list
(stated under the no-overflow side condition of the uint64 arithmetic). -/
theorem C3_size_bytes_is_contents_plus_declared_sizes
    (quotaOK : Bool) (parse : String → List Nat → Option ParseResult)
    (labelsOf : Descriptor → Except RegErr (List String)) (w : Bool)
    (account : Account) (m : IncomingManifest) (db : ProcDB) (st : Storage)
    (pr : ParseResult) (row : ManifestRowP) (db' : ProcDB) (st' : Storage)
    (hp : parse m.mediaType m.contents = some pr)
    (hres : validateAndStoreManifest quotaOK parse labelsOf w account m db st
              = (.ok row, db', st'))
    (hov : m.contents.length + ((pr.manifest.references.map (·.size)).sum) < 2 ^ 64)
    (hfresh : ∀ r ∈ db.manifests,
      ¬ (r.repositoryID = (findOrCreateRepository db m.repoName account).1.id
          ∧ r.digest = pr.digest)) :
    row.sizeBytes = m.contents.length + (pr.manifest.references.map (·.size)).sum
    ∧ row ∈ db'.manifests := by
  unfold validateAndStoreManifest at hres
  by_cases hq : quotaOK = true
  case neg => simp [hq] at hres
  simp only [hq, not_true_eq_false, if_false, hp] at hres
  have hbody : vasmTxnBody labelsOf w account m pr
      (findOrCreateRepository db m.repoName account).1
      (findOrCreateRepository db m.repoName account).2 st
      = .ok (row, db', st') := by
    cases href : m.reference with
    | tag t =>
        simp only [href] at hres
        cases hb : vasmTxnBody labelsOf w account m pr
            (findOrCreateRepository db m.repoName account).1
            (findOrCreateRepository db m.repoName account).2 st with
        | ok v =>
            obtain ⟨r, db2, st2⟩ := v
            rw [hb] at hres
            simp only [Prod.mk.injEq, Except.ok.injEq] at hres
            obtain ⟨h1, h2, h3⟩ := hres
            simp_all
        | error e => rw [hb] at hres; simp at hres
    | digest dd =>
        simp only [href] at hres
        by_cases hdd : pr.digest = dd
        · simp only [hdd, ne_eq, not_true_eq_false, decide_False, Bool.false_eq_true,
            if_false] at hres
          cases hb : vasmTxnBody labelsOf w account m pr
              (findOrCreateRepository db m.repoName account).1
              (findOrCreateRepository db m.repoName account).2 st with
          | ok v =>
              obtain ⟨r, db2, st2⟩ := v
              rw [hb] at hres
              simp only [Prod.mk.injEq, Except.ok.injEq] at hres
              obtain ⟨h1, h2, h3⟩ := hres
              simp_all
          | error e => rw [hb] at hres; simp at hres
        · simp [hdd] at hres
  unfold vasmTxnBody at hbody
  cases hv : vasmValidate labelsOf account pr
      (findOrCreateRepository db m.repoName account).1
      (findOrCreateRepository db m.repoName account).2 with
  | error e => rw [hv] at hbody; simp at hbody
  | ok u =>
      cases u
      rw [hv] at hbody
      cases w with
      | false => simp at hbody
      | true =>
          simp only [if_true, Except.ok.injEq, Prod.mk.injEq] at hbody
          obtain ⟨hrow, hdb', hst'⟩ := hbody
          have hfresh2 : ∀ r ∈ ((findOrCreateRepository db m.repoName account).2).manifests,
              ¬ (r.repositoryID = (findOrCreateRepository db m.repoName account).1.id
                  ∧ r.digest = pr.digest) := by
            rw [findOrCreateRepository_manifests]
            exact hfresh
          constructor
          · rw [← hrow]
            exact manifestSizeBytes_no_overflow m.contents.length pr.manifest.references hov
          · rw [← hdb', ← hrow]
            cases m.reference with
            | tag t =>
                rw [insertTagIfMissing_manifests,
                  insertManifestIfMissing_mem_of_fresh _ _ hfresh2]
                simp
            | digest dd =>
                rw [insertManifestIfMissing_mem_of_fresh _ _ hfresh2]
                simp

/-- Witness for C2 at a concrete input: pushing a manifest that references
blob `sha256:b1` into an empty non-replica repo fails with
`MANIFEST_BLOB_UNKNOWN` and detail `sha256:b1`. -/
theorem C2_witness :
    validateAndStoreManifest true
      (fun _ _ => some ⟨⟨[⟨"sha256:b1", 7⟩], false, ⟨"sha256:cfg", 3⟩⟩, "sha256:m1"⟩)
      (fun _ => .ok []) true ⟨"acc", "", ""⟩ ⟨"repo", .tag "latest", "mt", [1, 2, 3], 0⟩
      ⟨[], [], [], []⟩ []
      = (.error (.manifestBlobUnknown "sha256:b1"),
         ⟨[⟨1, "acc", "repo"⟩], [], [], []⟩, []) := by
  obtain ⟨d, hd, hmem, hres⟩ := (C2_blob_check_enforced_and_skipped_for_replicas).1
    (fun _ _ => some ⟨⟨[⟨"sha256:b1", 7⟩], false, ⟨"sha256:cfg", 3⟩⟩, "sha256:m1"⟩)
    (fun _ => .ok []) true ⟨"acc", "", ""⟩ ⟨"repo", .tag "latest", "mt", [1, 2, 3], 0⟩
    ⟨[], [], [], []⟩ []
    ⟨⟨[⟨"sha256:b1", 7⟩], false, ⟨"sha256:cfg", 3⟩⟩, "sha256:m1"⟩
    rfl (by intro d h; simp at h) rfl
    ⟨⟨"sha256:b1", 7⟩, by simp, by simp⟩
  have hd1 : d = ⟨"sha256:b1", 7⟩ := by simpa using hd
  rw [hd1] at hres
  exact hres

/-- Witness for C3 at a concrete input: storing a 3-byte manifest that
declares one 7-byte blob persists `size_bytes = 10`. -/
theorem C3_witness :
    (ManifestRowP.mk 1 "sha256:m1" "mt" 10 0 0).sizeBytes
        = ([1, 2, 3] : List Nat).length
            + (([⟨"sha256:b1", 7⟩] : List Descriptor).map (·.size)).sum
      ∧ ManifestRowP.mk 1 "sha256:m1" "mt" 10 0 0
          ∈ (ProcDB.mk [⟨1, "acc", "repo"⟩] [(1, "sha256:b1")]
              [⟨1, "sha256:m1", "mt", 10, 0, 0⟩]
              [⟨1, "latest", "sha256:m1", 0⟩]).manifests :=
  C3_size_bytes_is_contents_plus_declared_sizes true
    (fun _ _ => some ⟨⟨[⟨"sha256:b1", 7⟩], false, ⟨"sha256:cfg", 3⟩⟩, "sha256:m1"⟩)
    (fun _ => .ok []) true ⟨"acc", "", ""⟩ ⟨"repo", .tag "latest", "mt", [1, 2, 3], 0⟩
    ⟨[⟨1, "acc", "repo"⟩], [(1, "sha256:b1")], [], []⟩ []
    ⟨⟨[⟨"sha256:b1", 7⟩], false, ⟨"sha256:cfg", 3⟩⟩, "sha256:m1"⟩
    (ManifestRowP.mk 1 "sha256:m1" "mt" 10 0 0)
    (ProcDB.mk [⟨1, "acc", "repo"⟩] [(1, "sha256:b1")]
      [⟨1, "sha256:m1", "mt", 10, 0, 0⟩] [⟨1, "latest", "sha256:m1", 0⟩])
    [("acc", "repo", "sha256:m1", [1, 2, 3])]
    rfl (by rfl) (by decide) (by simp)

/-- Counterexample to C4 as stated: when the repository row does not exist
yet, a digest-mismatching push returns `DIGEST_INVALID` but a database
entry (the Repository row, committed by the find-or-create step that
precedes the digest check) has been created. -/
theorem C4_counterexample :
    (validateAndStoreManifest true
        (fun _ _ => some ⟨⟨[], false, ⟨"sha256:cfg", 3⟩⟩, "sha256:aaa"⟩)
        (fun _ => .ok []) true ⟨"acc", "", ""⟩
        ⟨"repo", .digest "sha256:bbb", "mt", [1, 2, 3], 0⟩ ⟨[], [], [], []⟩ []).1
      = .error (.digestInvalid "actual manifest digest is sha256:aaa")
    ∧ (validateAndStoreManifest true
        (fun _ _ => some ⟨⟨[], false, ⟨"sha256:cfg", 3⟩⟩, "sha256:aaa"⟩)
        (fun _ => .ok []) true ⟨"acc", "", ""⟩
        ⟨"repo", .digest "sha256:bbb", "mt", [1, 2, 3], 0⟩ ⟨[], [], [], []⟩ []).2.1
      ≠ ProcDB.mk [] [] [] [] := by
  constructor
  · rfl
  · decide

/-- C4 (amended): whenever the reference is a digest differing from the
computed digest, `ValidateAndStoreManifest` fails with `DIGEST_INVALID`,
and no Manifest or Tag entries are created; the find-or-create step, which
precedes the digest check, may however have committed a Repository row. -/
theorem C4_digest_mismatch_rejected
    (parse : String → List Nat → Option ParseResult)
    (labelsOf : Descriptor → Except RegErr (List String)) (w : Bool)
    (account : Account) (m : IncomingManifest) (db : ProcDB) (st : Storage)
    (pr : ParseResult) (dd : String)
    (hp : parse m.mediaType m.contents = some pr)
    (href : m.reference = .digest dd)
    (hne : pr.digest ≠ dd) :
    validateAndStoreManifest true parse labelsOf w account m db st
      = (.error (.digestInvalid ("actual manifest digest is " ++ pr.digest)),
         (findOrCreateRepository db m.repoName account).2, st)
    ∧ ((findOrCreateRepository db m.repoName account).2).manifests = db.manifests
    ∧ ((findOrCreateRepository db m.repoName account).2).tags = db.tags := by
  refine ⟨?_, findOrCreateRepository_manifests db m.repoName account,
    findOrCreateRepository_tags db m.repoName account⟩
  unfold validateAndStoreManifest
  simp [hp, href, hne]

/-- Witness for the amended C4 at a concrete input. -/
theorem C4_witness :
    validateAndStoreManifest true
        (fun _ _ => some ⟨⟨[], false, ⟨"sha256:cfg", 3⟩⟩, "sha256:aaa"⟩)
        (fun _ => .ok []) true ⟨"acc", "", ""⟩
        ⟨"repo", .digest "sha256:bbb", "mt", [1, 2, 3], 0⟩ ⟨[], [], [], []⟩ []
      = (.error (.digestInvalid "actual manifest digest is sha256:aaa"),
         ⟨[⟨1, "acc", "repo"⟩], [], [], []⟩, [])
    ∧ ([] : List ManifestRowP) = [] ∧ ([] : List TagRow) = [] :=
  C4_digest_mismatch_rejected
    (fun _ _ => some ⟨⟨[], false, ⟨"sha256:cfg", 3⟩⟩, "sha256:aaa"⟩)
    (fun _ => .ok []) true ⟨"acc", "", ""⟩
    ⟨"repo", .digest "sha256:bbb", "mt", [1, 2, 3], 0⟩ ⟨[], [], [], []⟩ []
    ⟨⟨[], false, ⟨"sha256:cfg", 3⟩⟩, "sha256:aaa"⟩ "sha256:bbb"
    rfl rfl (by decide)

/-! # Part 2: Replica manifest sync sweep — performManifestSync (claim C5) -/

/-- An observable effect of the deletion stage of `performManifestSync`: a
committed DB row deletion (`j.db.Delete`, executed without a transaction)
or a storage object deletion (`j.sd.DeleteManifest`) for a manifest digest. -/
inductive SyncEvent where
  | dbDelete (d : String)
  | storageDelete (d : String)
deriving Repr, DecidableEq

/-- Outcome of one pass of the inner `MANIFEST:` loop. -/
structure PassResult where
  deleted : List String
  remaining : List String
  events : List SyncEvent
  progress : Bool
  storageErr : Option String
deriving Repr, DecidableEq

/-- `parentDigestsOf` as built from the `manifest_manifest_refs` rows
`(parent_digest, child_digest)` of the repo. -/
def buildParents (refs : List (String × String)) : String → List String :=
  fun c => (refs.filter (fun r => r.2 = c)).map (fun r => r.1)

/-- One pass of the inner `MANIFEST:` loop of `performManifestSync` over
the digests still in `shallDeleteManifest`, visited in iteration order
`remaining`: a digest is deleted only when all of its parents are in
`manifestWasDeleted` (the `deleted` accumulator); deletion first removes
the DB row (committed immediately), then the storage object; a storage
deletion failure aborts the sweep with an error (the DB deletion of that
digest has already been committed). -/
def syncPass (parents : String → List String) (sdOK : String → Bool)
    (deleted : List String) : List String → PassResult
  | [] => ⟨deleted, [], [], false, none⟩
  | d :: rest =>
      if (parents d).all (fun p => deleted.contains p) then
        if sdOK d then
          let r := syncPass parents sdOK (d :: deleted) rest
          ⟨r.deleted, r.remaining, .dbDelete d :: .storageDelete d :: r.events,
            true, r.storageErr⟩
        else
          ⟨d :: deleted, rest, [.dbDelete d], true, some d⟩
      else
        let r := syncPass parents sdOK deleted rest
        ⟨r.deleted, d :: r.remaining, r.events, r.progress, r.storageErr⟩

theorem syncPass_remaining_le (parents : String → List String) (sdOK : String → Bool) :
    ∀ (rem : List String) (deleted : List String),
      (syncPass parents sdOK deleted rem).remaining.length ≤ rem.length
  | [], _ => by simp [syncPass]
  | d :: rest, deleted => by
      by_cases hg : ((parents d).all fun p => deleted.contains p) = true
      · by_cases hok : sdOK d = true
        · have := syncPass_remaining_le parents sdOK rest (d :: deleted)
          simp only [syncPass, hg, hok, if_true]
          simp only [List.length_cons]
          omega
        · simp only [syncPass, hg, hok, if_true, if_false, Bool.false_eq_true]
          simp
      · have := syncPass_remaining_le parents sdOK rest deleted
        simp only [syncPass, hg, if_false, Bool.false_eq_true]
        simp only [List.length_cons]
        omega

theorem syncPass_progress_lt (parents : String → List String) (sdOK : String → Bool) :
    ∀ (rem : List String) (deleted : List String),
      (syncPass parents sdOK deleted rem).storageErr = none →
      (syncPass parents sdOK deleted rem).progress = true →
      (syncPass parents sdOK deleted rem).remaining.length < rem.length
  | [], _, _, hp => by simp [syncPass] at hp
  | d :: rest, deleted, hs, hp => by
      by_cases hg : ((parents d).all fun p => deleted.contains p) = true
      · by_cases hok : sdOK d = true
        · have := syncPass_remaining_le parents sdOK rest (d :: deleted)
          simp only [syncPass, hg, hok, if_true]
          simp only [List.length_cons]
          omega
        · simp only [syncPass, hg, hok, if_true, if_false, Bool.false_eq_true] at hs
          simp at hs
      · simp only [syncPass, hg, if_false, Bool.false_eq_true] at hs hp ⊢
        have := syncPass_progress_lt parents sdOK rest deleted hs hp
        simp only [List.length_cons]
        omega

/-- The result of the deletion stage: success, the inconsistency error for
a stuck non-empty deletion set (naming the undeleted digests), or a storage
deletion failure. -/
inductive SyncResult where
  | ok
  | stuck (digests : List String)
  | storageFailed (digest : String)
deriving Repr, DecidableEq

/-- The outer `for len(shallDeleteManifest) > 0` loop of
`performManifestSync`: run passes until the set is empty; if a pass makes
no progress on a non-empty set, return the inconsistency error naming the
remaining digests; a storage failure aborts with the events so far. -/
def syncLoop (parents : String → List String) (sdOK : String → Bool)
    (deleted : List String) (remaining : List String) :
    List SyncEvent × SyncResult :=
  if remaining.isEmpty then ([], .ok)
  else
    let r := syncPass parents sdOK deleted remaining
    match hs : r.storageErr with
    | some d => (r.events, .storageFailed d)
    | none =>
        if hp : r.progress then
          let rec2 := syncLoop parents sdOK r.deleted r.remaining
          (r.events ++ rec2.1, rec2.2)
        else
          (r.events, .stuck r.remaining)
termination_by remaining.length
decreasing_by
  exact syncPass_progress_lt parents sdOK remaining deleted hs hp

/-- `eventBefore evs a b`: some occurrence of `a` lies strictly before some
occurrence of `b` in the event list `evs`. -/
def eventBefore (evs : List SyncEvent) (a b : SyncEvent) : Prop :=
  ∃ l1 l2 l3, evs = l1 ++ a :: l2 ++ b :: l3

/-- Event traces of completed (non-failing) deletion passes: a sequence of
`[dbDelete d, storageDelete d]` blocks in which every parent of a deleted
digest is already in the accumulated deleted set when the block starts.
The relation carries the deleted set before and after the trace. -/
inductive PairedTrace (parents : String → List String) :
    List String → List SyncEvent → List String → Prop
  | nil (del : List String) : PairedTrace parents del [] del
  | block {del del' : List String} {evs : List SyncEvent} (d : String)
      (hpar : ∀ p ∈ parents d, p ∈ del)
      (htail : PairedTrace parents (d :: del) evs del') :
      PairedTrace parents del (.dbDelete d :: .storageDelete d :: evs) del'

theorem PairedTrace.append {parents : String → List String}
    {del del1 del2 : List String} {e1 e2 : List SyncEvent}
    (h1 : PairedTrace parents del e1 del1) (h2 : PairedTrace parents del1 e2 del2) :
    PairedTrace parents del (e1 ++ e2) del2 := by
  induction h1 with
  | nil => simpa using h2
  | block d hpar htail ih => exact .block d hpar (ih h2)

theorem PairedTrace.mem_final {parents : String → List String}
    {del del' : List String} {evs : List SyncEvent}
    (h : PairedTrace parents del evs del') :
    ∀ p ∈ del', p ∈ del ∨ SyncEvent.dbDelete p ∈ evs := by
  induction h with
  | nil => intro p hp; exact .inl hp
  | block d hpar htail ih =>
      intro p hp
      rcases ih p hp with hmem | hev
      · rcases List.mem_cons.mp hmem with rfl | hmem'
        · exact .inr (by simp)
        · exact .inl hmem'
      · exact .inr (by simp [hev])

theorem PairedTrace.parent_before {parents : String → List String}
    {del del' : List String} {evs : List SyncEvent}
    (h : PairedTrace parents del evs del') :
    ∀ c p, p ∈ parents c → SyncEvent.dbDelete c ∈ evs →
      p ∈ del ∨ eventBefore evs (.dbDelete p) (.dbDelete c) := by
  induction h with
  | nil => intro c p _ hmem; simp at hmem
  | @block del0 del0' evs0 d hpar htail ih =>
      intro c p hp hmem
      by_cases hpd : p ∈ del0
      · exact .inl hpd
      · rcases List.mem_cons.mp hmem with heq | hmem1
        · cases heq
          exact absurd (hpar p hp) hpd
        · rcases List.mem_cons.mp hmem1 with heq2 | hmem2
          · exact (SyncEvent.noConfusion heq2)
          · rcases ih c p hp hmem2 with hin | hbef
            · rcases List.mem_cons.mp hin with rfl | hin2
              · obtain ⟨s, t, hsplit⟩ := List.append_of_mem hmem2
                exact .inr ⟨[], SyncEvent.storageDelete p :: s, t, by simp [hsplit]⟩
              · exact absurd hin2 hpd
            · obtain ⟨l1, l2, l3, hsplit⟩ := hbef
              exact .inr ⟨SyncEvent.dbDelete d :: SyncEvent.storageDelete d :: l1, l2, l3,
                by simp [hsplit]⟩

theorem PairedTrace.db_before_storage {parents : String → List String}
    {del del' : List String} {evs : List SyncEvent}
    (h : PairedTrace parents del evs del') :
    ∀ c, SyncEvent.storageDelete c ∈ evs →
      eventBefore evs (.dbDelete c) (.storageDelete c) := by
  induction h with
  | nil => intro c hmem; simp at hmem
  | @block del0 del0' evs0 d hpar htail ih =>
      intro c hmem
      rcases List.mem_cons.mp hmem with heq | hmem1
      · exact (SyncEvent.noConfusion heq)
      · rcases List.mem_cons.mp hmem1 with heq2 | hmem2
        · cases heq2
          exact ⟨[], [], evs0, rfl⟩
        · obtain ⟨l1, l2, l3, hsplit⟩ := ih c hmem2
          exact ⟨SyncEvent.dbDelete d :: SyncEvent.storageDelete d :: l1, l2, l3,
            by simp [hsplit]⟩

theorem syncPass_paired (parents : String → List String) (sdOK : String → Bool) :
    ∀ (rem del : List String),
      (syncPass parents sdOK del rem).storageErr = none →
      PairedTrace parents del (syncPass parents sdOK del rem).events
        (syncPass parents sdOK del rem).deleted
  | [], del, _ => by simpa [syncPass] using PairedTrace.nil del
  | d :: rest, del, hs => by
      by_cases hg : ((parents d).all fun p => del.contains p) = true
      · have hpar : ∀ p ∈ parents d, p ∈ del := by
          intro p hp
          have := List.all_eq_true.mp hg p hp
          simpa using this
        by_cases hok : sdOK d = true
        · simp only [syncPass, hg, hok, if_true] at hs ⊢
          exact .block d hpar (syncPass_paired parents sdOK rest (d :: del) hs)
        · unfold syncPass at hs
          rw [if_pos hg, if_neg hok] at hs
          simp at hs
      · simp only [syncPass, hg, if_false, Bool.false_eq_true] at hs ⊢
        exact syncPass_paired parents sdOK rest del hs

theorem syncPass_fail (parents : String → List String) (sdOK : String → Bool) :
    ∀ (rem del : List String) (d : String),
      (syncPass parents sdOK del rem).storageErr = some d →
      ∃ e1 del', (syncPass parents sdOK del rem).events = e1 ++ [.dbDelete d]
        ∧ PairedTrace parents del e1 del'
        ∧ ∀ p ∈ parents d, p ∈ del'
  | [], del, d, hs => by simp [syncPass] at hs
  | d0 :: rest, del, d, hs => by
      by_cases hg : ((parents d0).all fun p => del.contains p) = true
      · have hpar : ∀ p ∈ parents d0, p ∈ del := by
          intro p hp
          have := List.all_eq_true.mp hg p hp
          simpa using this
        by_cases hok : sdOK d0 = true
        · simp only [syncPass, hg, hok, if_true] at hs ⊢
          obtain ⟨e1, del', heq, hpt, hpd⟩ := syncPass_fail parents sdOK rest (d0 :: del) d hs
          exact ⟨.dbDelete d0 :: .storageDelete d0 :: e1, del',
            by simp [heq], .block d0 hpar hpt, hpd⟩
        · simp only [syncPass, hg, hok, if_true, if_false, Bool.false_eq_true] at hs ⊢
          obtain rfl : d0 = d := by simpa using hs
          exact ⟨[], del, by simp, PairedTrace.nil del, hpar⟩
      · simp only [syncPass, hg, if_false, Bool.false_eq_true] at hs ⊢
        exact syncPass_fail parents sdOK rest del d hs

/-- The shape of any event trace of the deletion stage: a sequence of
ordered `[dbDelete, storageDelete]` blocks, possibly followed by one
db-only block for a digest whose storage deletion failed. -/
def SyncTrace (parents : String → List String) (del0 : List String)
    (evs : List SyncEvent) : Prop :=
  (∃ del', PairedTrace parents del0 evs del') ∨
  (∃ e1 del' d, evs = e1 ++ [.dbDelete d] ∧ PairedTrace parents del0 e1 del'
    ∧ ∀ p ∈ parents d, p ∈ del')

theorem syncLoop_trace (parents : String → List String) (sdOK : String → Bool) :
    ∀ (n : Nat) (rem del : List String), rem.length ≤ n →
      SyncTrace parents del (syncLoop parents sdOK del rem).1 := by
  intro n
  induction n with
  | zero =>
      intro rem del hlen
      have : rem = [] := List.length_eq_zero.mp (Nat.le_zero.mp hlen)
      subst this
      rw [syncLoop]
      exact .inl ⟨del, by simpa using PairedTrace.nil del⟩
  | succ n ih =>
      intro rem del hlen
      rw [syncLoop]
      by_cases hemp : rem.isEmpty
      · simp only [hemp, if_true]
        exact .inl ⟨del, PairedTrace.nil del⟩
      · simp only [hemp, if_false, Bool.false_eq_true]
        cases hs : (syncPass parents sdOK del rem).storageErr with
        | some d =>
            obtain ⟨e1, del', heq, hpt, hpd⟩ := syncPass_fail parents sdOK rem del d hs
            exact .inr ⟨e1, del', d, heq, hpt, hpd⟩
        | none =>
            by_cases hp : (syncPass parents sdOK del rem).progress = true
            · simp only [hp, dif_pos]
              have hpt := syncPass_paired parents sdOK rem del hs
              have hlt := syncPass_progress_lt parents sdOK rem del hs hp
              have hrec := ih (syncPass parents sdOK del rem).remaining
                (syncPass parents sdOK del rem).deleted (by omega)
              rcases hrec with ⟨del2, hpt2⟩ | ⟨e1, del2, d, heq, hpt2, hpd⟩
              · exact .inl ⟨del2, hpt.append hpt2⟩
              · refine .inr ⟨(syncPass parents sdOK del rem).events ++ e1, del2, d,
                  by simp [heq], hpt.append hpt2, hpd⟩
            · simp only [hp, dif_neg]
              exact .inl ⟨_, syncPass_paired parents sdOK rem del hs⟩

theorem eventBefore_append_right {evs e2 : List SyncEvent} {a b : SyncEvent}
    (h : eventBefore evs a b) : eventBefore (evs ++ e2) a b := by
  obtain ⟨l1, l2, l3, rfl⟩ := h
  exact ⟨l1, l2, l3 ++ e2, by simp⟩

theorem syncPass_no_progress (parents : String → List String) (sdOK : String → Bool) :
    ∀ (rem del : List String),
      (syncPass parents sdOK del rem).progress = false →
      syncPass parents sdOK del rem = ⟨del, rem, [], false, none⟩
  | [], del, _ => by simp [syncPass]
  | d :: rest, del, hp => by
      by_cases hg : ((parents d).all fun p => del.contains p) = true
      · by_cases hok : sdOK d = true
        · unfold syncPass at hp
          rw [if_pos hg, if_pos hok] at hp
          simp at hp
        · unfold syncPass at hp
          rw [if_pos hg, if_neg hok] at hp
          simp at hp
      · unfold syncPass at hp ⊢
        rw [if_neg hg] at hp ⊢
        simp only at hp
        have := syncPass_no_progress parents sdOK rest del hp
        rw [this]

/-- C5: in the deletion stage of `performManifestSync`, (1) a manifest in
the deletion set is deleted only after every parent manifest referencing
it via `manifest_manifest_refs` has been deleted (its DB deletion occurs
strictly after the parent's DB deletion in the event trace); (2) for each
manifest the DB row deletion precedes the storage object deletion; and
(3) if a pass over the non-empty deletion set deletes nothing, the sweep
returns the inconsistency error naming the undeleted digests. -/
theorem C5_topological_deletion_order (refs : List (String × String))
    (sdOK : String → Bool) (D : List String) :
    (∀ c p, p ∈ buildParents refs c →
        SyncEvent.dbDelete c ∈ (syncLoop (buildParents refs) sdOK [] D).1 →
        eventBefore (syncLoop (buildParents refs) sdOK [] D).1
          (.dbDelete p) (.dbDelete c))
    ∧ (∀ c, SyncEvent.storageDelete c ∈ (syncLoop (buildParents refs) sdOK [] D).1 →
        eventBefore (syncLoop (buildParents refs) sdOK [] D).1
          (.dbDelete c) (.storageDelete c))
    ∧ (∀ (deleted rem : List String), rem ≠ [] →
        (syncPass (buildParents refs) sdOK deleted rem).progress = false →
        syncLoop (buildParents refs) sdOK deleted rem = ([], .stuck rem)) := by
  have htr := syncLoop_trace (buildParents refs) sdOK D.length D [] (le_refl _)
  refine ⟨?_, ?_, ?_⟩
  · intro c p hp hmem
    rcases htr with ⟨del', hpt⟩ | ⟨e1, del', d, heq, hpt, hpd⟩
    · rcases hpt.parent_before c p hp hmem with hin | hbef
      · simp at hin
      · exact hbef
    · rw [heq] at hmem ⊢
      rcases List.mem_append.mp hmem with hmem1 | hmem2
      · rcases hpt.parent_before c p hp hmem1 with hin | hbef
        · simp at hin
        · exact eventBefore_append_right hbef
      · have hcd : c = d := by simpa using hmem2
        subst hcd
        have hpdel : p ∈ del' := hpd p hp
        rcases hpt.mem_final p hpdel with hin | hev
        · simp at hin
        · obtain ⟨s, t, hsplit⟩ := List.append_of_mem hev
          exact ⟨s, t, [], by simp [hsplit]⟩
  · intro c hmem
    rcases htr with ⟨del', hpt⟩ | ⟨e1, del', d, heq, hpt, hpd⟩
    · exact hpt.db_before_storage c hmem
    · rw [heq] at hmem ⊢
      rcases List.mem_append.mp hmem with hmem1 | hmem2
      · exact eventBefore_append_right (hpt.db_before_storage c hmem1)
      · simp at hmem2
  · intro deleted rem hne hp
    have hred := syncPass_no_progress (buildParents refs) sdOK rem deleted hp
    rw [syncLoop]
    rw [if_neg (by simpa using hne)]
    rw [hred]
    rfl

theorem syncLoop_eq (parents : String → List String) (sdOK : String → Bool)
    (deleted remaining : List String) :
    syncLoop parents sdOK deleted remaining
      = if remaining.isEmpty then ([], .ok)
        else
          let r := syncPass parents sdOK deleted remaining
          match r.storageErr with
          | some d => (r.events, .storageFailed d)
          | none =>
              if r.progress then
                let rec2 := syncLoop parents sdOK r.deleted r.remaining
                (r.events ++ rec2.1, rec2.2)
              else (r.events, .stuck r.remaining) := by
  rw [syncLoop]
  by_cases hemp : remaining.isEmpty
  · simp [hemp]
  · simp only [hemp, if_false, Bool.false_eq_true]
    cases hs : (syncPass parents sdOK deleted remaining).storageErr with
    | some d => simp [hs]
    | none =>
        by_cases hp : (syncPass parents sdOK deleted remaining).progress = true
        · simp [hs, hp]
        · simp [hs, hp]

/-- Witness for C5 at a concrete input: with `manifest_manifest_refs`
containing parent `a` → child `b` and deletion set `{b, a}`, the DB
deletion of the parent `a` precedes the DB deletion of the child `b`. -/
theorem C5_witness :
    eventBefore
      [SyncEvent.dbDelete "a", SyncEvent.storageDelete "a",
       SyncEvent.dbDelete "b", SyncEvent.storageDelete "b"]
      (.dbDelete "a") (.dbDelete "b") := by
  have h1 : syncLoop (buildParents [("a", "b")]) (fun _ => true) [] ["b", "a"]
      = ([SyncEvent.dbDelete "a", SyncEvent.storageDelete "a",
          SyncEvent.dbDelete "b", SyncEvent.storageDelete "b"], .ok) := by
    simp [syncLoop_eq, syncPass, buildParents]
  have happ := (C5_topological_deletion_order [("a", "b")] (fun _ => true) ["b", "a"]).1
    "b" "a" (by decide) (by rw [h1]; decide)
  rw [h1] at happ
  exact happ

/-! # Part 3: Manifest validation sweep — ValidateNextManifest (claims C6, C7) -/

/-- A `manifests` table row as read by the janitor's validation sweep. -/
structure JManifestRow where
  repoID : Nat
  digest : String
  validatedAt : Int
  validationErrorMessage : String
deriving Repr, DecidableEq

/-- A `repos` table row as read by the janitor. -/
structure JRepoRow where
  id : Nat
  accountName : String
deriving Repr, DecidableEq

/-- The slice of the database that `ValidateNextManifest` touches. -/
structure JDB where
  manifests : List JManifestRow
  repos : List JRepoRow
  accounts : List String
deriving Repr, DecidableEq

/-- The WHERE clause of `outdatedManifestSearchQuery`:
`validated_at < $1 OR (validated_at < $2 AND validation_error_message != '')`
with `$1 = now − 24 h` and `$2 = now − 10 min`. -/
def outdatedManifestQualifies (maxSuccessfulValidatedAt maxFailedValidatedAt : Int)
    (m : JManifestRow) : Bool :=
  m.validatedAt < maxSuccessfulValidatedAt
    ∨ (m.validatedAt < maxFailedValidatedAt ∧ m.validationErrorMessage ≠ "")

/-- The ORDER BY key of `outdatedManifestSearchQuery`:
`validation_error_message != '' DESC, validated_at ASC` — previously
errored manifests first, then oldest first. -/
def outdatedManifestKey (m : JManifestRow) : Nat × Int :=
  (if m.validationErrorMessage ≠ "" then 0 else 1, m.validatedAt)

/-- Non-strict lexicographic comparison of ORDER BY keys. -/
def keyLE (a b : Nat × Int) : Prop :=
  a.1 < b.1 ∨ (a.1 = b.1 ∧ a.2 ≤ b.2)

/-- Strict lexicographic comparison of ORDER BY keys. -/
def keyLT (a b : Nat × Int) : Bool :=
  a.1 < b.1 ∨ (a.1 = b.1 ∧ a.2 < b.2)

theorem keyLE_refl (a : Nat × Int) : keyLE a a := .inr ⟨rfl, le_refl _⟩

theorem keyLE_trans {a b c : Nat × Int} (h1 : keyLE a b) (h2 : keyLE b c) : keyLE a c := by
  unfold keyLE at h1 h2 ⊢
  omega

theorem keyLT_imp_LE {a b : Nat × Int} (h : keyLT a b = true) : keyLE a b := by
  unfold keyLT at h
  have h' := of_decide_eq_true h
  unfold keyLE
  omega

theorem keyLT_false_imp {a b : Nat × Int} (h : keyLT a b = false) : keyLE b a := by
  unfold keyLT at h
  have h' := of_decide_eq_false h
  unfold keyLE
  omega

/-- Keep the better of a candidate row and the best row seen so far,
under the ORDER BY key. -/
def selectBetter (m : JManifestRow) (r : Option JManifestRow) : Option JManifestRow :=
  match r with
  | none => some m
  | some b =>
      if keyLT (outdatedManifestKey b) (outdatedManifestKey m) then some b else some m

/-- `SELECT * FROM manifests WHERE … ORDER BY … LIMIT 1` of
`outdatedManifestSearchQuery`: return a qualifying row minimal under the
ORDER BY key. -/
def selectOutdatedManifest (t1 t2 : Int) : List JManifestRow → Option JManifestRow
  | [] => none
  | m :: rest =>
      let r := selectOutdatedManifest t1 t2 rest
      if outdatedManifestQualifies t1 t2 m then selectBetter m r else r

theorem selectOutdatedManifest_none (t1 t2 : Int) :
    ∀ ms : List JManifestRow, (∀ m ∈ ms, outdatedManifestQualifies t1 t2 m = false) →
      selectOutdatedManifest t1 t2 ms = none
  | [], _ => rfl
  | m :: rest, h => by
      have hm := h m (by simp)
      have hrest := selectOutdatedManifest_none t1 t2 rest
        (fun m' hm' => h m' (List.mem_cons_of_mem _ hm'))
      simp [selectOutdatedManifest, hm, hrest]

theorem selectOutdatedManifest_none_iff (t1 t2 : Int) :
    ∀ ms : List JManifestRow, selectOutdatedManifest t1 t2 ms = none →
      ∀ m ∈ ms, outdatedManifestQualifies t1 t2 m = false
  | [], _, m, hm => by simp at hm
  | m0 :: rest, h, m, hm => by
      unfold selectOutdatedManifest at h
      by_cases hq : outdatedManifestQualifies t1 t2 m0 = true
      · exfalso
        rw [if_pos hq] at h
        unfold selectBetter at h
        cases hr : selectOutdatedManifest t1 t2 rest with
        | none => rw [hr] at h; simp at h
        | some b =>
            rw [hr] at h
            dsimp only at h
            by_cases hlt : keyLT (outdatedManifestKey b) (outdatedManifestKey m0) = true
            · rw [if_pos hlt] at h; simp at h
            · rw [if_neg hlt] at h; simp at h
      · rw [if_neg hq] at h
        rcases List.mem_cons.mp hm with rfl | hm'
        · simpa using hq
        · exact selectOutdatedManifest_none_iff t1 t2 rest h m hm'

theorem selectOutdatedManifest_spec (t1 t2 : Int) :
    ∀ (ms : List JManifestRow) (m : JManifestRow),
      selectOutdatedManifest t1 t2 ms = some m →
      m ∈ ms ∧ outdatedManifestQualifies t1 t2 m = true ∧
        ∀ m' ∈ ms, outdatedManifestQualifies t1 t2 m' = true →
          keyLE (outdatedManifestKey m) (outdatedManifestKey m')
  | [], m, h => by simp [selectOutdatedManifest] at h
  | m0 :: rest, m, h => by
      unfold selectOutdatedManifest at h
      by_cases hq : outdatedManifestQualifies t1 t2 m0 = true
      · rw [if_pos hq] at h
        unfold selectBetter at h
        cases hr : selectOutdatedManifest t1 t2 rest with
        | none =>
            rw [hr] at h
            obtain rfl : m0 = m := by simpa using h
            refine ⟨by simp, hq, ?_⟩
            intro m' hm' hq'
            rcases List.mem_cons.mp hm' with rfl | hm''
            · exact keyLE_refl _
            · exact absurd hq' (by
                simp [selectOutdatedManifest_none_iff t1 t2 rest hr m' hm''])
        | some b =>
            rw [hr] at h
            dsimp only at h
            obtain ⟨hbmem, hbq, hbmin⟩ := selectOutdatedManifest_spec t1 t2 rest b hr
            by_cases hlt : keyLT (outdatedManifestKey b) (outdatedManifestKey m0) = true
            · rw [if_pos hlt] at h
              obtain rfl : b = m := by simpa using h
              refine ⟨List.mem_cons_of_mem _ hbmem, hbq, ?_⟩
              intro m' hm' hq'
              rcases List.mem_cons.mp hm' with rfl | hm''
              · exact keyLT_imp_LE hlt
              · exact hbmin m' hm'' hq'
            · rw [if_neg hlt] at h
              obtain rfl : m0 = m := by simpa using h
              refine ⟨by simp, hq, ?_⟩
              intro m' hm' hq'
              rcases List.mem_cons.mp hm' with rfl | hm''
              · exact keyLE_refl _
              · exact keyLE_trans
                  (keyLT_false_imp (Bool.eq_false_iff.mpr hlt))
                  (hbmin m' hm'' hq')
      · rw [if_neg hq] at h
        obtain ⟨hmem, hqq, hmin⟩ := selectOutdatedManifest_spec t1 t2 rest m h
        refine ⟨List.mem_cons_of_mem _ hmem, hqq, ?_⟩
        intro m' hm' hq'
        rcases List.mem_cons.mp hm' with rfl | hm''
        · exact absurd hq' (by simpa using hq)
        · exact hmin m' hm'' hq'

/-- Result of one janitor sweep invocation. -/
inductive JanitorResult where
  | noRows
  | dbError (msg : String)
  | validationFailed (msg : String)
  | ok
deriving Repr, DecidableEq

/-- `SELECT * FROM repos WHERE id = $1`. -/
def findRepoJ (db : JDB) (id : Nat) : Option JRepoRow :=
  db.repos.find? (fun r => r.id = id)

/-- `keppel.FindAccount`. -/
def findAccountJ (db : JDB) (name : String) : Option String :=
  db.accounts.find? (fun a => a = name)

/-- The UPDATE statements of `ValidateNextManifest`: set `validated_at` to
the current time and `validation_error_message` to `''` (success) or to the
error text (failure), on the row keyed `(repo_id, digest)`. -/
def updateValidatedAt (ms : List JManifestRow) (repoID : Nat) (digest : String)
    (now : Int) (msg : String) : List JManifestRow :=
  ms.map (fun r =>
    if r.repoID = repoID ∧ r.digest = digest then
      { r with validatedAt := now, validationErrorMessage := msg }
    else r)

/-- `Janitor.ValidateNextManifest`: select the manifest to validate with
`outdatedManifestSearchQuery` (parameters `now − 24 h` and `now − 10 min`);
return `sql.ErrNoRows` when none qualifies; look up repo and account;
run `ValidateExistingManifest` (the `validateOutcome` oracle: `none` =
success, `some msg` = failure) and in both cases bump `validated_at` to
now, recording `''` or the error message. -/
def validateNextManifest (db : JDB) (now : Int)
    (validateOutcome : JManifestRow → Option String) : JanitorResult × JDB :=
  match selectOutdatedManifest (now - 86400) (now - 600) db.manifests with
  | none => (.noRows, db)
  | some manifest =>
      match findRepoJ db manifest.repoID with
      | none => (.dbError "cannot find repo", db)
      | some repo =>
          match findAccountJ db repo.accountName with
          | none => (.dbError "cannot find account", db)
          | some _ =>
              match validateOutcome manifest with
              | none =>
                  let ms := updateValidatedAt db.manifests manifest.repoID manifest.digest now ""
                  (.ok, { db with manifests := ms })
              | some errMsg =>
                  let ms := updateValidatedAt db.manifests manifest.repoID manifest.digest now errMsg
                  (.validationFailed errMsg, { db with manifests := ms })

/-- C6: each `ValidateNextManifest` call processes at most one manifest —
(1) when no manifest qualifies (none older than 24 h, none errored and
older than 10 min) it returns the `sql.ErrNoRows` sentinel and changes no
row; (2) the selected manifest qualifies and is minimal under the ORDER BY
key (errored first, then oldest `validated_at`); (3) every row of the
resulting database is either an unchanged original row or a row keyed by
the single selected manifest. -/
theorem C6_validation_sweep_selects_single_oldest
    (db : JDB) (now : Int) (validateOutcome : JManifestRow → Option String) :
    ((∀ m ∈ db.manifests,
        outdatedManifestQualifies (now - 86400) (now - 600) m = false) →
      validateNextManifest db now validateOutcome = (.noRows, db))
    ∧ (∀ m, selectOutdatedManifest (now - 86400) (now - 600) db.manifests = some m →
        m ∈ db.manifests
        ∧ outdatedManifestQualifies (now - 86400) (now - 600) m = true
        ∧ ∀ m' ∈ db.manifests,
            outdatedManifestQualifies (now - 86400) (now - 600) m' = true →
            keyLE (outdatedManifestKey m) (outdatedManifestKey m'))
    ∧ (∀ r ∈ (validateNextManifest db now validateOutcome).2.manifests,
        r ∈ db.manifests
        ∨ ∃ m, selectOutdatedManifest (now - 86400) (now - 600) db.manifests = some m
            ∧ r.repoID = m.repoID ∧ r.digest = m.digest) := by
  refine ⟨?_, ?_, ?_⟩
  · intro hall
    have hsel := selectOutdatedManifest_none (now - 86400) (now - 600) db.manifests hall
    unfold validateNextManifest
    rw [hsel]
  · intro m hsel
    exact selectOutdatedManifest_spec (now - 86400) (now - 600) db.manifests m hsel
  · intro r hr
    unfold validateNextManifest at hr
    cases hsel : selectOutdatedManifest (now - 86400) (now - 600) db.manifests with
    | none => rw [hsel] at hr; exact .inl hr
    | some m =>
        rw [hsel] at hr
        dsimp only at hr
        cases hrepo : findRepoJ db m.repoID with
        | none => rw [hrepo] at hr; exact .inl hr
        | some repo =>
            rw [hrepo] at hr
            dsimp only at hr
            cases hacct : findAccountJ db repo.accountName with
            | none => rw [hacct] at hr; exact .inl hr
            | some a =>
                rw [hacct] at hr
                dsimp only at hr
                cases hout : validateOutcome m with
                | none =>
                    rw [hout] at hr
                    dsimp only [updateValidatedAt] at hr
                    obtain ⟨x, hx, hfx⟩ := List.mem_map.mp hr
                    by_cases hcond : x.repoID = m.repoID ∧ x.digest = m.digest
                    · rw [if_pos hcond] at hfx
                      exact .inr ⟨m, rfl, by rw [← hfx]; exact ⟨hcond.1, hcond.2⟩⟩
                    · rw [if_neg hcond] at hfx
                      exact .inl (hfx ▸ hx)
                | some e =>
                    rw [hout] at hr
                    dsimp only [updateValidatedAt] at hr
                    obtain ⟨x, hx, hfx⟩ := List.mem_map.mp hr
                    by_cases hcond : x.repoID = m.repoID ∧ x.digest = m.digest
                    · rw [if_pos hcond] at hfx
                      exact .inr ⟨m, rfl, by rw [← hfx]; exact ⟨hcond.1, hcond.2⟩⟩
                    · rw [if_neg hcond] at hfx
                      exact .inl (hfx ▸ hx)

/-- C7: when the validation sweep actually processes a manifest (one was
selected and the repo/account lookups succeed), that manifest's
`validated_at` is set to the current time regardless of whether
revalidation succeeded or failed; on success the error message is cleared,
on failure the error message is recorded and the error is returned. -/
theorem C7_validated_at_bumped_even_on_failure
    (db : JDB) (now : Int) (validateOutcome : JManifestRow → Option String)
    (m : JManifestRow) (repo : JRepoRow) (acct : String)
    (hsel : selectOutdatedManifest (now - 86400) (now - 600) db.manifests = some m)
    (hrepo : findRepoJ db m.repoID = some repo)
    (hacct : findAccountJ db repo.accountName = some acct) :
    { m with
        validatedAt := now
        validationErrorMessage := (validateOutcome m).getD "" }
      ∈ (validateNextManifest db now validateOutcome).2.manifests
    ∧ (validateOutcome m = none →
        (validateNextManifest db now validateOutcome).1 = .ok)
    ∧ (∀ e, validateOutcome m = some e →
        (validateNextManifest db now validateOutcome).1 = .validationFailed e) := by
  obtain ⟨hmem, -, -⟩ :=
    selectOutdatedManifest_spec (now - 86400) (now - 600) db.manifests m hsel
  cases hout : validateOutcome m with
  | none =>
      have hred : validateNextManifest db now validateOutcome
          = (.ok,
             { db with
                manifests := updateValidatedAt db.manifests m.repoID m.digest now "" }) := by
        unfold validateNextManifest
        rw [hsel]
        dsimp only
        rw [hrepo]
        dsimp only
        rw [hacct]
        dsimp only
        rw [hout]
      rw [hred]
      refine ⟨?_, fun _ => rfl, fun e he => nomatch he⟩
      dsimp only [updateValidatedAt, Option.getD]
      refine List.mem_map.mpr ⟨m, hmem, ?_⟩
      rw [if_pos ⟨rfl, rfl⟩]
  | some e0 =>
      have hred : validateNextManifest db now validateOutcome
          = (.validationFailed e0,
             { db with
                manifests := updateValidatedAt db.manifests m.repoID m.digest now e0 }) := by
        unfold validateNextManifest
        rw [hsel]
        dsimp only
        rw [hrepo]
        dsimp only
        rw [hacct]
        dsimp only
        rw [hout]
      rw [hred]
      refine ⟨?_, ?_, ?_⟩
      · dsimp only [updateValidatedAt, Option.getD]
        refine List.mem_map.mpr ⟨m, hmem, ?_⟩
        rw [if_pos ⟨rfl, rfl⟩]
      · intro hn
        exact nomatch hn
      · intro e he
        obtain rfl : e0 = e := by simpa using he
        rfl

/-- Witness for C6 at a concrete input: with a clean manifest last validated
at time 0 and a previously-errored manifest last validated at 50000
(now = 100000), the errored one is selected and its ORDER BY key is no
larger than the older clean one's. -/
theorem C6_witness :
    keyLE (outdatedManifestKey ⟨1, "sha256:c", 50000, "x"⟩)
      (outdatedManifestKey ⟨1, "sha256:a", 0, ""⟩) :=
  ((C6_validation_sweep_selects_single_oldest
      ⟨[⟨1, "sha256:a", 0, ""⟩, ⟨1, "sha256:c", 50000, "x"⟩, ⟨1, "sha256:b", 99999, ""⟩],
       [⟨1, "acc"⟩], ["acc"]⟩ 100000 (fun _ => none)).2.1
    ⟨1, "sha256:c", 50000, "x"⟩ (by decide)).2.2
    ⟨1, "sha256:a", 0, ""⟩ (by decide) (by decide)

/-- Witness for C7 at a concrete input: a failing revalidation still bumps
`validated_at` to now (100000) and records the error message. -/
theorem C7_witness :
    (⟨1, "sha256:c", 100000, "boom"⟩ : JManifestRow)
      ∈ (validateNextManifest
          ⟨[⟨1, "sha256:a", 0, ""⟩, ⟨1, "sha256:c", 50000, "x"⟩, ⟨1, "sha256:b", 99999, ""⟩],
           [⟨1, "acc"⟩], ["acc"]⟩ 100000 (fun _ => some "boom")).2.manifests :=
  (C7_validated_at_bumped_even_on_failure
      ⟨[⟨1, "sha256:a", 0, ""⟩, ⟨1, "sha256:c", 50000, "x"⟩, ⟨1, "sha256:b", 99999, ""⟩],
       [⟨1, "acc"⟩], ["acc"]⟩ 100000 (fun _ => some "boom")
      ⟨1, "sha256:c", 50000, "x"⟩ ⟨1, "acc"⟩ "acc"
      (by decide) (by decide) (by decide)).1

/-! # Part 4: Token engine — IssueToken / parseToken (claim C8)

JWT cryptography is modelled symbolically (perfect cryptography): a
signature records the signing key's public part, the signing method and
the signed payload, and verification with a public key and method succeeds
exactly on signatures produced by that key with that method over that
payload.  `serializePublicKey` is injective on the public part per
algorithm (hex of the Ed25519 key, `"%x:%s"` of the RSA key), modelled as
the pair (alg, pub).  The embedded identity blob and the `ScopeSet`
normalization of the returned `Authorization` are not modelled (their code
is not needed for this claim); `parseToken` returns the verified claims. -/

/-- JWT signing method, derived from the issuer key type by
`chooseSigningMethod` (Ed25519 → EdDSA, RSA → RS256). -/
inductive SigAlg where
  | edDSA
  | rs256
deriving Repr, DecidableEq

/-- An issuer key: identified by its public part and its key type
(which determines the signing method). -/
structure IssuerKey where
  pub : Nat
  alg : SigAlg
deriving Repr, DecidableEq

/-- `chooseSigningMethod`. -/
def chooseSigningMethod (k : IssuerKey) : SigAlg := k.alg

/-- `serializePublicKey`: the algorithm-specific encoding of the public
part, as placed in the token header field `jwk`. -/
def serializePublicKey (k : IssuerKey) : SigAlg × Nat := (k.alg, k.pub)

/-- `derivePublicKey`. -/
def derivePublicKey (k : IssuerKey) : Nat := k.pub

/-- The claims of a keppel token (`tokenClaims`). -/
structure TokenClaims where
  id : Nat
  audience : String
  issuer : String
  subject : String
  expiresAt : Int
  notBefore : Int
  issuedAt : Int
  access : List (String × String × List String)
deriving Repr, DecidableEq

/-- A symbolic signature (see the section comment). -/
structure Signature where
  pub : Nat
  alg : SigAlg
  payload : TokenClaims
deriving Repr, DecidableEq

/-- A serialized token: header fields `jwk` and `alg`, claims, signature. -/
structure Token where
  headerJwk : SigAlg × Nat
  method : SigAlg
  claims : TokenClaims
  sig : Signature
deriving Repr, DecidableEq

/-- Signature verification with public key `pub` against the token's
declared method and claims. -/
def sigValid (t : Token) (pub : Nat) : Bool :=
  t.sig.pub = pub ∧ t.sig.alg = t.method ∧ t.sig.payload = t.claims

/-- `parseToken`: select the validating key by matching the token header's
key fingerprint (`jwk`) against all configured issuer keys of the
audience; check the signing method; verify the signature; check `exp` and
`nbf` (the jwt library's check at parse time, then the explicit checks
with 3-second clock-skew tolerance); check the issuer (`local` audience
only) and the audience. -/
def parseToken (issuerKeys : List IssuerKey) (publicHost : String) (isLocal : Bool)
    (now : Int) (t : Token) : Except String TokenClaims :=
  match issuerKeys.find? (fun k => serializePublicKey k = t.headerJwk) with
  | none => .error "token signed by unknown key"
  | some k =>
      if chooseSigningMethod k ≠ t.method then
        .error "unexpected signing method"
      else if ¬ sigValid t (derivePublicKey k) then
        .error "signature is invalid"
      else if ¬ (now < t.claims.expiresAt) then
        .error "token is expired"
      else if ¬ (t.claims.notBefore ≤ now) then
        .error "token is not valid yet"
      else if ¬ (now - 3 < t.claims.expiresAt) then
        .error "token expired"
      else if ¬ (t.claims.notBefore ≤ now + 3) then
        .error "token not valid yet"
      else if isLocal ∧ t.claims.issuer ≠ "keppel-api@" ++ publicHost then
        .error "token has wrong issuer"
      else if t.claims.audience ≠ publicHost then
        .error "token has wrong audience"
      else
        .ok t.claims

/-- `Authorization.IssueToken`: error when no issuer keys are configured;
otherwise sign with `issuerKeys[0]`, with audience = the audience's public
hostname, issuer = `"keppel-api@" + cfg.APIPublicHostname`, lifetime
4 hours (14400 s), `nbf` = `iat` = now, and the signing key's fingerprint
in the `jwk` header. -/
def issueToken (issuerKeys : List IssuerKey) (publicHost : String)
    (apiPublicHostname : String) (subject : String)
    (access : List (String × String × List String)) (uuid : Nat) (now : Int) :
    Except String Token :=
  match issuerKeys with
  | [] => .error "no issuer keys configured for this audience"
  | issuerKey :: _ =>
      let method := chooseSigningMethod issuerKey
      let claims : TokenClaims :=
        { id := uuid
          audience := publicHost
          issuer := "keppel-api@" ++ apiPublicHostname
          subject := subject
          expiresAt := now + 14400
          notBefore := now
          issuedAt := now
          access := access }
      .ok { headerJwk := serializePublicKey issuerKey
            method := method
            claims := claims
            sig := { pub := issuerKey.pub, alg := method, payload := claims } }

/-- C8: tokens are signed with the first key of the audience's issuer key
list, while verification accepts a token signed by any key in the list,
matched via the key fingerprint in the token header; hence after
prepending new keys, tokens issued under the previous first key still
verify while they have not expired. -/
theorem C8_sign_with_first_key_verify_after_rotation
    (k0 : IssuerKey) (rest newKeys : List IssuerKey)
    (publicHost subject : String)
    (access : List (String × String × List String)) (uuid : Nat)
    (now t1 : Int) (t : Token)
    (hissue : issueToken (k0 :: rest) publicHost publicHost subject access uuid now
                = .ok t)
    (hnb : now ≤ t1) (hexp : t1 < now + 14400) :
    (t.headerJwk = serializePublicKey k0
      ∧ t.sig.pub = k0.pub ∧ t.sig.alg = chooseSigningMethod k0)
    ∧ parseToken (newKeys ++ (k0 :: rest)) publicHost true t1 t = .ok t.claims := by
  simp only [issueToken, Except.ok.injEq] at hissue
  subst hissue
  refine ⟨⟨rfl, rfl, rfl⟩, ?_⟩
  have hex : ∃ x ∈ newKeys ++ (k0 :: rest),
      (fun k => decide (serializePublicKey k = serializePublicKey k0)) x = true :=
    ⟨k0, by simp, by simp⟩
  have hsome : ((newKeys ++ (k0 :: rest)).find?
      (fun k => decide (serializePublicKey k = serializePublicKey k0))).isSome := by
    rw [List.find?_isSome]
    exact hex
  obtain ⟨k', hfind⟩ := Option.isSome_iff_exists.mp hsome
  have hp : serializePublicKey k' = serializePublicKey k0 := by
    have := List.find?_some hfind
    simpa using this
  have halg : k'.alg = k0.alg := congrArg Prod.fst hp
  have hpub : k'.pub = k0.pub := congrArg Prod.snd hp
  unfold parseToken
  rw [show ((newKeys ++ (k0 :: rest)).find?
      (fun k => serializePublicKey k = (serializePublicKey k0 : SigAlg × Nat)))
      = some k' from hfind]
  dsimp only
  rw [if_neg (show ¬ (chooseSigningMethod k' ≠ chooseSigningMethod k0) by
    simp [chooseSigningMethod, halg])]
  rw [if_neg (show ¬ ¬ (sigValid ⟨serializePublicKey k0, chooseSigningMethod k0, _, _⟩
      (derivePublicKey k') = true) by
    simp [sigValid, derivePublicKey, hpub, chooseSigningMethod])]
  rw [if_neg (show ¬ ¬ (t1 < now + 14400) from not_not_intro hexp)]
  rw [if_neg (show ¬ ¬ (now ≤ t1) from not_not_intro hnb)]
  rw [if_neg (show ¬ ¬ (t1 - 3 < now + 14400) from not_not_intro (by omega))]
  rw [if_neg (show ¬ ¬ (now ≤ t1 + 3) from not_not_intro (by omega))]
  rw [if_neg (show ¬ (true = true ∧ ("keppel-api@" ++ publicHost ≠ "keppel-api@" ++ publicHost))
      by simp)]
  rw [if_neg (show ¬ (publicHost ≠ publicHost) by simp)]

/-- Witness for C8 at a concrete input: a token signed by the previous
first key `(pub 1, EdDSA)` still verifies at time 100 after key
`(pub 2, RS256)` has been prepended to the issuer key list. -/
theorem C8_witness :
    parseToken [⟨2, .rs256⟩, ⟨1, .edDSA⟩] "reg.example.org" true 100
      ⟨(.edDSA, 1), .edDSA,
        ⟨7, "reg.example.org", "keppel-api@reg.example.org", "alice", 14400, 0, 0, []⟩,
        ⟨1, .edDSA,
          ⟨7, "reg.example.org", "keppel-api@reg.example.org", "alice", 14400, 0, 0, []⟩⟩⟩
      = .ok ⟨7, "reg.example.org", "keppel-api@reg.example.org", "alice", 14400, 0, 0, []⟩ :=
  (C8_sign_with_first_key_verify_after_rotation
    ⟨1, .edDSA⟩ [] [⟨2, .rs256⟩] "reg.example.org" "alice" [] 7 0 100
    ⟨(.edDSA, 1), .edDSA,
      ⟨7, "reg.example.org", "keppel-api@reg.example.org", "alice", 14400, 0, 0, []⟩,
      ⟨1, .edDSA,
        ⟨7, "reg.example.org", "keppel-api@reg.example.org", "alice", 14400, 0, 0, []⟩⟩⟩
    rfl (by decide) (by decide)).2

/-! # Part 5: Vulnerability check sweep — CheckVulnerabilitiesForNextManifest,
doVulnerabilityCheck (claim C9) -/

/-- Vulnerability severities of the `clair` package. -/
inductive Severity where
  | clean
  | negligible
  | low
  | medium
  | high
  | critical
  | unknown
  | pending
deriving Repr, DecidableEq

/-- Rank in the severity order `clean < negligible < low < medium < high <
critical < unknown` (`pending` is handled separately). -/
def severityRank : Severity → Nat
  | .clean => 0
  | .negligible => 1
  | .low => 2
  | .medium => 3
  | .high => 4
  | .critical => 5
  | .unknown => 6
  | .pending => 7

/-- Modelled from the spec: `clair.MergeSeverities` (its implementation is
not under src/, only its unit test): the merge of an empty set is `clean`;
`pending` dominates all others; otherwise the maximum in the order
`clean < negligible < low < medium < high < critical < unknown`. -/
def mergeSeverities (l : List Severity) : Severity :=
  if l.contains .pending then .pending
  else l.foldl (fun acc s => if severityRank acc < severityRank s then s else acc) .clean

/-- A `blobs` row as read by the vulnerability sweep. -/
structure VBlobRow where
  digest : String
  storageID : String
deriving Repr, DecidableEq

/-- A `manifests` table row as read by the vulnerability sweep. -/
structure VManifestRow where
  repositoryID : Nat
  digest : String
  pushedAt : Int
  nextVulnerabilityCheckAt : Option Int
  vulnerabilityStatus : Severity
deriving Repr, DecidableEq

/-- Clair's answer to `CheckManifestState`. -/
structure ClairState where
  isErrored : Bool
  isIndexed : Bool
deriving Repr, DecidableEq

/-- A layer entry of the Clair manifest (`clair.Layer`). -/
structure ClairLayer where
  digest : String
  url : String
deriving Repr, DecidableEq

/-- Outcome of the `for _, blob := range blobs` loop of
`doVulnerabilityCheck`. -/
inductive BlobLoopResult where
  | layers (ls : List ClairLayer)
  | deferOld
  | restart (newBlobs : List VBlobRow)
  | fail (msg : String)
deriving Repr, DecidableEq

/-- The blob loop of `doVulnerabilityCheck`: for each blob, when its
`storage_id` is empty the check is deferred (`pushed_at + 10 min` already
past `time.Now()` → return success without Clair) or the blob is
replicated synchronously and the whole check restarts; otherwise a signed
URL is obtained and a Clair layer is collected. -/
def collectBlobLayers (realNow : Int) (pushedAt : Int)
    (replicate : VBlobRow → Except String (List VBlobRow))
    (urlForBlob : String → Except String String) :
    List VBlobRow → BlobLoopResult
  | [] => .layers []
  | b :: rest =>
      if b.storageID = "" then
        if pushedAt + 600 < realNow then
          .deferOld
        else
          match replicate b with
          | .error e => .fail e
          | .ok newBlobs => .restart newBlobs
      else
        match urlForBlob b.storageID with
        | .error e => .fail e
        | .ok url =>
            match collectBlobLayers realNow pushedAt replicate urlForBlob rest with
            | .layers ls => .layers (⟨b.digest, url⟩ :: ls)
            | r => r

/-- The tail of `doVulnerabilityCheck`: merge the collected severities,
persist the merged status on the manifest and reschedule — +2 min while
indexing is not finished (merged status `unknown`), +1 h otherwise. -/
def finishVulnCheck (now : Int) (manifest : VManifestRow) (severities : List Severity) :
    Except String VManifestRow :=
  let merged := mergeSeverities severities
  if merged = .unknown then
    .ok { manifest with
            vulnerabilityStatus := merged
            nextVulnerabilityCheckAt := some (now + 120) }
  else
    .ok { manifest with
            vulnerabilityStatus := merged
            nextVulnerabilityCheckAt := some (now + 3600) }

/-- The body of `Janitor.doVulnerabilityCheck` for one invocation; the
`return j.doVulnerabilityCheck(...)` restart after a synchronous blob
replication is abstracted into the `restart` continuation. -/
def doVulnerabilityCheckOnce
    (restart : List VBlobRow → VManifestRow → Except String VManifestRow)
    (now realNow : Int) (inMaintenance : Bool)
    (replicate : VBlobRow → Except String (List VBlobRow))
    (urlForBlob : String → Except String String)
    (subSeverities : List Severity)
    (checkManifestState : List ClairLayer → Except String ClairState)
    (getReport : Except String (Option Severity))
    (blobs : List VBlobRow) (manifest : VManifestRow) :
    Except String VManifestRow :=
  if inMaintenance then
    .ok { manifest with nextVulnerabilityCheckAt := some (now + 3600) }
  else
    match collectBlobLayers realNow manifest.pushedAt replicate urlForBlob blobs with
    | .fail e => .error e
    | .deferOld =>
        .ok { manifest with
                nextVulnerabilityCheckAt := some (manifest.pushedAt + 600) }
    | .restart newBlobs =>
        restart newBlobs
          { manifest with
              nextVulnerabilityCheckAt := some (manifest.pushedAt + 600) }
    | .layers layers =>
        if blobs.isEmpty then
          finishVulnCheck now manifest subSeverities
        else
          match checkManifestState layers with
          | .error e => .error e
          | .ok clairState =>
              if clairState.isErrored then
                .error ("Clair reports indexing of " ++ manifest.digest ++ " as errored")
              else if clairState.isIndexed then
                match getReport with
                | .error e => .error e
                | .ok none =>
                    .error ("Clair reports indexing of " ++ manifest.digest
                      ++ " as finished, but vulnerability report is 404")
                | .ok (some sev) =>
                    finishVulnCheck now manifest (subSeverities ++ [sev])
              else
                finishVulnCheck now manifest (subSeverities ++ [Severity.unknown])

/-- `Janitor.doVulnerabilityCheck`.  `now` is `j.timeNow()`, `realNow` is
`time.Now()` (used only by the 10-minute replication grace check); the
synchronous blob replication and the re-read of the blob table after it
are modelled by the `replicate` oracle, and the restart recursion is given
explicit fuel (the Go code recurses after each successful replication). -/
def doVulnerabilityCheck : Nat → Int → Int → Bool →
    (VBlobRow → Except String (List VBlobRow)) →
    (String → Except String String) →
    List Severity →
    (List ClairLayer → Except String ClairState) →
    Except String (Option Severity) →
    List VBlobRow → VManifestRow → Except String VManifestRow
  | 0, _, _, _, _, _, _, _, _, _, _ => .error "replication restart limit exceeded"
  | fuel + 1, now, realNow, inMaintenance, replicate, urlForBlob, subSeverities,
      checkManifestState, getReport, blobs, manifest =>
      doVulnerabilityCheckOnce
        (fun newBlobs m' =>
          doVulnerabilityCheck fuel now realNow inMaintenance replicate urlForBlob
            subSeverities checkManifestState getReport newBlobs m')
        now realNow inMaintenance replicate urlForBlob subSeverities
        checkManifestState getReport blobs manifest

/-- The slice of the database that the vulnerability sweep touches.
Accounts carry their `in_maintenance` flag. -/
structure VDB where
  manifests : List VManifestRow
  repos : List JRepoRow
  accounts : List (String × Bool)
deriving Repr, DecidableEq

/-- The WHERE clause of `vulnCheckSelectQuery`:
`next_vuln_check_at IS NULL OR next_vuln_check_at < $1`. -/
def vulnCheckQualifies (now : Int) (m : VManifestRow) : Bool :=
  match m.nextVulnerabilityCheckAt with
  | none => true
  | some t => t < now

/-- The ORDER BY key of `vulnCheckSelectQuery`:
`next_vuln_check_at IS NULL DESC, next_vuln_check_at ASC`. -/
def vulnCheckKey (m : VManifestRow) : Nat × Int :=
  match m.nextVulnerabilityCheckAt with
  | none => (0, 0)
  | some t => (1, t)

/-- Keep the better of candidate and best-so-far under the ORDER BY key. -/
def vulnSelectBetter (m : VManifestRow) (r : Option VManifestRow) : Option VManifestRow :=
  match r with
  | none => some m
  | some b => if keyLT (vulnCheckKey b) (vulnCheckKey m) then some b else some m

/-- `SELECT m.* FROM manifests m WHERE … ORDER BY … LIMIT 1` of
`vulnCheckSelectQuery`. -/
def selectVulnCheckManifest (now : Int) : List VManifestRow → Option VManifestRow
  | [] => none
  | m :: rest =>
      let r := selectVulnCheckManifest now rest
      if vulnCheckQualifies now m then vulnSelectBetter m r else r

/-- `SELECT * FROM repos WHERE id = $1` for the vulnerability sweep. -/
def findRepoV (db : VDB) (id : Nat) : Option JRepoRow :=
  db.repos.find? (fun r => r.id = id)

/-- `keppel.FindAccount` for the vulnerability sweep: returns the account's
`in_maintenance` flag. -/
def findAccountV (db : VDB) (name : String) : Option (String × Bool) :=
  db.accounts.find? (fun a => a.1 = name)

/-- Result of one vulnerability sweep invocation. -/
inductive VulnSweepResult where
  | noRows
  | failed (msg : String)
  | ok
deriving Repr, DecidableEq

/-- `Janitor.CheckVulnerabilitiesForNextManifest`: select the next manifest
due for a vulnerability check, look up repo and account, run
`doVulnerabilityCheck`, and persist the updated manifest row with
`j.db.Update` — but only when the check returned no error; on error the
deferred handler wraps it with
`"while updating vulnerability status for a manifest: "` and the row is
left untouched. -/
def checkVulnerabilitiesForNextManifest (db : VDB) (now realNow : Int) (fuel : Nat)
    (blobsOf : Nat → String → List VBlobRow)
    (replicate : VBlobRow → Except String (List VBlobRow))
    (urlForBlob : String → Except String String)
    (subSeveritiesOf : String → List Severity)
    (checkManifestState : List ClairLayer → Except String ClairState)
    (getReport : Except String (Option Severity)) :
    VulnSweepResult × VDB :=
  match selectVulnCheckManifest now db.manifests with
  | none => (.noRows, db)
  | some manifest =>
      match findRepoV db manifest.repositoryID with
      | none =>
          (.failed ("while updating vulnerability status for a manifest: cannot find repo for manifest "
            ++ manifest.digest), db)
      | some repo =>
          match findAccountV db repo.accountName with
          | none =>
              (.failed ("while updating vulnerability status for a manifest: cannot find account for repo "
                ++ repo.accountName), db)
          | some acct =>
              match doVulnerabilityCheck fuel now realNow acct.2 replicate urlForBlob
                  (subSeveritiesOf manifest.digest) checkManifestState getReport
                  (blobsOf manifest.repositoryID manifest.digest) manifest with
              | .error e =>
                  (.failed ("while updating vulnerability status for a manifest: " ++ e), db)
              | .ok m' =>
                  let ms := db.manifests.map (fun r =>
                    if r.repositoryID = manifest.repositoryID ∧ r.digest = manifest.digest
                    then m' else r)
                  (.ok, { db with manifests := ms })

/-- Counterexample to C9 as stated: with the scanner reporting the selected
manifest's indexing as errored, the sweep surfaces the error but does NOT
reschedule `next_vuln_check_at` to now + 1 h — the database is returned
unchanged, the row keeping its previous `next_vuln_check_at` (0, not
10000 + 3600). -/
theorem C9_counterexample :
    checkVulnerabilitiesForNextManifest
        ⟨[⟨1, "sha256:m", 0, some 0, .clean⟩], [⟨1, "acc"⟩], [("acc", false)]⟩
        10000 10000 2
        (fun _ _ => [⟨"sha256:b", "sid"⟩])
        (fun _ => .error "unused")
        (fun _ => .ok "https://blob.example")
        (fun _ => [])
        (fun _ => .ok ⟨true, false⟩)
        (.ok none)
      = (.failed "while updating vulnerability status for a manifest: Clair reports indexing of sha256:m as errored",
         ⟨[⟨1, "sha256:m", 0, some 0, .clean⟩], [⟨1, "acc"⟩], [("acc", false)]⟩)
    ∧ (⟨1, "sha256:m", 0, some 0, .clean⟩ : VManifestRow).nextVulnerabilityCheckAt
        ≠ some (10000 + 3600) :=
  ⟨rfl, by decide⟩

/-- C9 (amended): when the scanner reports indexing of the selected
manifest as errored, the error is surfaced to the caller (wrapped with the
sweep's prefix), and the manifest row is not updated: `next_vuln_check_at`
keeps its previous value instead of being rescheduled to now + 1 hour
(the +1 h reschedule happens only on non-error outcomes). -/
theorem C9_errored_scan_surfaces_error_without_update
    (db : VDB) (now realNow : Int) (fuel : Nat)
    (blobsOf : Nat → String → List VBlobRow)
    (replicate : VBlobRow → Except String (List VBlobRow))
    (urlForBlob : String → Except String String)
    (subSeveritiesOf : String → List Severity)
    (checkManifestState : List ClairLayer → Except String ClairState)
    (getReport : Except String (Option Severity))
    (m : VManifestRow) (repo : JRepoRow) (acctName : String)
    (ls : List ClairLayer) (st : ClairState)
    (hsel : selectVulnCheckManifest now db.manifests = some m)
    (hrepo : findRepoV db m.repositoryID = some repo)
    (hacct : findAccountV db repo.accountName = some (acctName, false))
    (hlayers : collectBlobLayers realNow m.pushedAt replicate urlForBlob
                 (blobsOf m.repositoryID m.digest) = .layers ls)
    (hnonempty : (blobsOf m.repositoryID m.digest).isEmpty = false)
    (hstate : checkManifestState ls = .ok st)
    (herr : st.isErrored = true)
    (hfuel : 0 < fuel) :
    checkVulnerabilitiesForNextManifest db now realNow fuel blobsOf replicate
        urlForBlob subSeveritiesOf checkManifestState getReport
      = (.failed ("while updating vulnerability status for a manifest: "
          ++ ("Clair reports indexing of " ++ m.digest ++ " as errored")), db) := by
  obtain ⟨fuel', rfl⟩ : ∃ f, fuel = f + 1 := by
    cases fuel with
    | zero => omega
    | succ f => exact ⟨f, rfl⟩
  have hdo : doVulnerabilityCheck (fuel' + 1) now realNow false replicate urlForBlob
      (subSeveritiesOf m.digest) checkManifestState getReport
      (blobsOf m.repositoryID m.digest) m
      = .error ("Clair reports indexing of " ++ m.digest ++ " as errored") := by
    show doVulnerabilityCheckOnce
        (fun newBlobs m' =>
          doVulnerabilityCheck fuel' now realNow false replicate urlForBlob
            (subSeveritiesOf m.digest) checkManifestState getReport newBlobs m')
        now realNow false replicate urlForBlob (subSeveritiesOf m.digest)
        checkManifestState getReport (blobsOf m.repositoryID m.digest) m
      = .error ("Clair reports indexing of " ++ m.digest ++ " as errored")
    unfold doVulnerabilityCheckOnce
    rw [if_neg (by simp)]
    rw [hlayers]
    dsimp only
    rw [if_neg (by simp [hnonempty])]
    rw [hstate]
    dsimp only
    rw [if_pos herr]
  unfold checkVulnerabilitiesForNextManifest
  rw [hsel]
  dsimp only
  rw [hrepo]
  dsimp only
  rw [hacct]
  dsimp only
  rw [hdo]

/-- Witness for the amended C9 at a concrete input. -/
theorem C9_witness :
    checkVulnerabilitiesForNextManifest
        ⟨[⟨1, "sha256:m", 0, some 0, .clean⟩], [⟨1, "acc"⟩], [("acc", false)]⟩
        10000 10000 2
        (fun _ _ => [⟨"sha256:b", "sid"⟩])
        (fun _ => .error "unused")
        (fun _ => .ok "https://blob.example")
        (fun _ => [])
        (fun _ => .ok ⟨true, false⟩)
        (.ok none)
      = (.failed ("while updating vulnerability status for a manifest: Clair reports indexing of "
          ++ "sha256:m" ++ " as errored"),
         ⟨[⟨1, "sha256:m", 0, some 0, .clean⟩], [⟨1, "acc"⟩], [("acc", false)]⟩) :=
  C9_errored_scan_surfaces_error_without_update
    ⟨[⟨1, "sha256:m", 0, some 0, .clean⟩], [⟨1, "acc"⟩], [("acc", false)]⟩
    10000 10000 2
    (fun _ _ => [⟨"sha256:b", "sid"⟩])
    (fun _ => .error "unused")
    (fun _ => .ok "https://blob.example")
    (fun _ => [])
    (fun _ => .ok ⟨true, false⟩)
    (.ok none)
    ⟨1, "sha256:m", 0, some 0, .clean⟩ ⟨1, "acc"⟩ "acc"
    [⟨"sha256:b", "https://blob.example"⟩] ⟨true, false⟩
    (by decide) (by decide) (by decide) (by decide) (by decide) rfl (by decide)
    (by decide)

/-! # Part 6: Validation session — applyDefaults / ValidateManifest /
ValidateBlobContents (claim C10) -/

/-- `client.ValidationSession`, with Go nil-ness made explicit: `logger =
none` models a nil `ValidationLogger`, `isValid = none` models a nil map.
Loggers are identified by number; the `noopLogger` substituted by
`applyDefaults` is id 0.  The cache holds the keys mapped to `true`. -/
structure ValidationSessionM where
  logger : Option Nat
  isValid : Option (List String)
deriving Repr, DecidableEq

/-- The logger id of `noopLogger{}`. -/
def noopLoggerID : Nat := 0

/-- `(*ValidationSession).applyDefaults`: a nil receiver is replaced by a
fresh `&ValidationSession{}`; a nil logger by `noopLogger{}`; a nil cache
by an empty map. -/
def applyDefaults (s : Option ValidationSessionM) : ValidationSessionM :=
  let s' := match s with
            | none => ValidationSessionM.mk none none
            | some t => t
  { logger := some (s'.logger.getD noopLoggerID)
    isValid := some (s'.isValid.getD []) }

/-- The fields of `client.RepoClient` used by validation. -/
structure RepoClientM where
  host : String
  repoName : String
deriving Repr, DecidableEq

/-- `RepoClient.validationCacheKey`: results are cached per
`host/repo/digest-or-tag`. -/
def validationCacheKey (c : RepoClientM) (digestOrTagName : String) : String :=
  c.host ++ "/" ++ c.repoName ++ "/" ++ digestOrTagName

/-- A call to the session's `ValidationLogger`, tagged with the logger id
it went to. -/
inductive VLogEvent where
  | manifest (loggerID : Nat) (ref : String) (level : Nat) (ok : Bool) (fromCache : Bool)
  | blob (loggerID : Nat) (digest : String) (level : Nat) (ok : Bool) (fromCache : Bool)
deriving Repr, DecidableEq

/-- A session after `applyDefaults`: both fields are present. -/
structure ASession where
  loggerID : Nat
  isValid : List String
deriving Repr, DecidableEq

/-- What `ValidateManifest`/`doValidateManifest` need of a parsed manifest:
its blob references, its (platform-filtered) manifest references and its
canonical digest. -/
structure ParsedManifestV where
  blobRefs : List String
  manifestRefs : List String
  digest : String
deriving Repr, DecidableEq

/-- `RepoClient.doValidateBlobContents`: cache hit → log and succeed;
otherwise download the blob and hash it (the `actualDigestOf` oracle
returns the digest computed from the downloaded bytes), compare with the
expected digest, and cache the key only on success. -/
def doValidateBlobContentsGo (c : RepoClientM) (blobDigest : String) (level : Nat)
    (s : ASession) (actualDigestOf : String → Except String String) :
    Except String Unit × ASession × List VLogEvent :=
  let cacheKey := validationCacheKey c blobDigest
  if s.isValid.contains cacheKey then
    (.ok (), s, [.blob s.loggerID blobDigest level true true])
  else
    match actualDigestOf blobDigest with
    | .error e => (.error e, s, [.blob s.loggerID blobDigest level false false])
    | .ok actual =>
        if actual ≠ blobDigest then
          (.error ("actual digest is " ++ actual), s,
           [.blob s.loggerID blobDigest level false false])
        else
          (.ok (), { s with isValid := cacheKey :: s.isValid },
           [.blob s.loggerID blobDigest level true false])

/-- The `for _, desc := range manifest.BlobReferences()` loop of
`doValidateManifest`. -/
def validateBlobRefsGo (c : RepoClientM) (level : Nat)
    (actualDigestOf : String → Except String String) :
    List String → ASession → Except String Unit × ASession × List VLogEvent
  | [], s => (.ok (), s, [])
  | d :: rest, s =>
      match doValidateBlobContentsGo c d level s actualDigestOf with
      | (.ok _, s', evs) =>
          match validateBlobRefsGo c level actualDigestOf rest s' with
          | (r, s'', evs') => (r, s'', evs ++ evs')
      | (.error e, s', evs) => (.error e, s', evs)

mutual

/-- `RepoClient.doValidateManifest`: cache hit → log and succeed; else
download and parse the manifest (oracles `download` and `parse`; the
platform filter is folded into `parse`'s manifest reference list), log the
manifest itself as good, recurse into blob references then manifest
references, and write the digest key and the reference key into the cache
only after all children passed.  Recursion depth is bounded by `fuel`. -/
def doValidateManifestGo (fuel : Nat) (c : RepoClientM) (reference : String)
    (level : Nat) (s : ASession)
    (download : String → Except String (List Nat × String))
    (parse : String → List Nat → Except String ParsedManifestV)
    (actualDigestOf : String → Except String String) :
    Except String Unit × ASession × List VLogEvent :=
  match fuel with
  | 0 => (.error "recursion depth limit exceeded", s, [])
  | fuel + 1 =>
      if s.isValid.contains (validationCacheKey c reference) then
        (.ok (), s, [.manifest s.loggerID reference level true true])
      else
        match download reference with
        | .error e => (.error e, s, [.manifest s.loggerID reference level false false])
        | .ok (manifestBytes, manifestMediaType) =>
            match parse manifestMediaType manifestBytes with
            | .error e => (.error e, s, [.manifest s.loggerID reference level false false])
            | .ok pm =>
                let ev0 := VLogEvent.manifest s.loggerID pm.digest level true false
                match validateBlobRefsGo c (level + 1) actualDigestOf pm.blobRefs s with
                | (.error e, s', evs) => (.error e, s', ev0 :: evs)
                | (.ok _, s', evs) =>
                    match validateManifestRefsGo fuel c (level + 1) pm.manifestRefs s'
                        download parse actualDigestOf with
                    | (.error e, s'', evs') => (.error e, s'', ev0 :: evs ++ evs')
                    | (.ok _, s'', evs') =>
                        let key1 := validationCacheKey c pm.digest
                        let key2 := validationCacheKey c reference
                        (.ok (), { s'' with isValid := key2 :: key1 :: s''.isValid },
                         ev0 :: evs ++ evs')

/-- The `for _, desc := range manifest.ManifestReferences(platformFilter)`
loop of `doValidateManifest`. -/
def validateManifestRefsGo (fuel : Nat) (c : RepoClientM) (level : Nat) :
    List String → ASession →
    (String → Except String (List Nat × String)) →
    (String → List Nat → Except String ParsedManifestV) →
    (String → Except String String) →
    Except String Unit × ASession × List VLogEvent
  | [], s, _, _, _ => (.ok (), s, [])
  | d :: rest, s, download, parse, actualDigestOf =>
      match doValidateManifestGo fuel c d level s download parse actualDigestOf with
      | (.ok _, s', evs) =>
          match validateManifestRefsGo fuel c level rest s' download parse actualDigestOf with
          | (r, s'', evs') => (r, s'', evs ++ evs')
      | (.error e, s', evs) => (.error e, s', evs)

end

/-- `RepoClient.ValidateManifest`: apply the session defaults, then run the
recursive validation at level 0. -/
def validateManifestGo (fuel : Nat) (c : RepoClientM) (reference : String)
    (session : Option ValidationSessionM)
    (download : String → Except String (List Nat × String))
    (parse : String → List Nat → Except String ParsedManifestV)
    (actualDigestOf : String → Except String String) :
    Except String Unit × ASession × List VLogEvent :=
  let s := applyDefaults session
  doValidateManifestGo fuel c reference 0
    ⟨s.logger.getD noopLoggerID, s.isValid.getD []⟩
    download parse actualDigestOf

/-- `RepoClient.ValidateBlobContents`: apply the session defaults, then run
the blob validation at level 0. -/
def validateBlobContentsGo (c : RepoClientM) (blobDigest : String)
    (session : Option ValidationSessionM)
    (actualDigestOf : String → Except String String) :
    Except String Unit × ASession × List VLogEvent :=
  let s := applyDefaults session
  doValidateBlobContentsGo c blobDigest 0
    ⟨s.logger.getD noopLoggerID, s.isValid.getD []⟩
    actualDigestOf

/-- C10: passing a nil `*ValidationSession` to `ValidateManifest` or
`ValidateBlobContents` is safe and behaves exactly like passing a fresh
empty session: `applyDefaults` on the nil pointer yields a session with
the no-op logger and an empty validity cache — identical to the one
obtained from a fresh zero-valued session — and after `applyDefaults`
both session fields are always populated, so no call dereferences nil
state. -/
theorem C10_nil_session_behaves_like_fresh_session
    (fuel : Nat) (c : RepoClientM) (reference : String)
    (download : String → Except String (List Nat × String))
    (parse : String → List Nat → Except String ParsedManifestV)
    (actualDigestOf : String → Except String String) :
    applyDefaults none = applyDefaults (some ⟨none, none⟩)
    ∧ applyDefaults none = ⟨some noopLoggerID, some []⟩
    ∧ (∀ s, (applyDefaults s).logger.isSome ∧ (applyDefaults s).isValid.isSome)
    ∧ validateManifestGo fuel c reference none download parse actualDigestOf
        = validateManifestGo fuel c reference (some ⟨none, none⟩)
            download parse actualDigestOf
    ∧ validateBlobContentsGo c reference none actualDigestOf
        = validateBlobContentsGo c reference (some ⟨none, none⟩) actualDigestOf := by
  refine ⟨rfl, rfl, ?_, rfl, rfl⟩
  intro s
  cases s with
  | none => exact ⟨rfl, rfl⟩
  | some t => exact ⟨rfl, rfl⟩
